import Mathlib

/-!
Verification development for a multi-language static analyzer
(resource-lifecycle and type-narrowing detectors for Java, Python,
Kotlin, Swift and Rust).

Texts are modelled as lists of characters (`Str`), positions as `Nat`
character offsets (byte offsets of the source coincide on ASCII input).
Each regular expression used by the source is compiled by hand into a
deterministic matcher that reproduces the backtracking behaviour of the
original pattern; searches go through the generic `findFrom` combinator,
whose characterisation lemmas state that it returns the least matching
position, exactly like `re.search`.
-/

namespace UBS

abbrev Str := List Char

/-- ASCII whitespace: the fragment of Python `\s` / `str.isspace` exercised here. -/
def isPySpace (c : Char) : Bool :=
  c = ' ' || c = '\t' || c = '\n' || c = '\r' || c = '\x0b' || c = '\x0c'

/-- Python `\w` on ASCII input. -/
def isWordChar (c : Char) : Bool := c.isAlpha || c.isDigit || c = '_'

def isIdentStart (c : Char) : Bool := c.isAlpha || c = '_'

/-- Length of the maximal prefix whose characters satisfy `p`. -/
def takeWhileLen (p : Char → Bool) : Str → Nat
  | [] => 0
  | c :: rest => if p c then takeWhileLen p rest + 1 else 0

/-- Python-style slice `t[a:b]`. -/
def slice (t : Str) (a b : Nat) : Str := (t.drop a).take (b - a)

/-- Fuelled scan underlying `findFrom` (structural recursion, so that proofs
by kernel computation can evaluate it). -/
def findFromGo (f : Nat → Option α) : Nat → Nat → Option (Nat × α)
  | _, 0 => none
  | i, fuel + 1 =>
    match f i with
    | some a => some (i, a)
    | none => findFromGo f (i + 1) fuel

/-- First index `i` with `start ≤ i < stop` at which `f` yields a value:
the semantics of `re.search` scanning for the leftmost match. -/
def findFrom (f : Nat → Option α) (start stop : Nat) : Option (Nat × α) :=
  findFromGo f start (stop - start)

/-- Successive non-overlapping leftmost matches: the semantics of `re.finditer`.
Entries are `(start, capture, end)`; scanning resumes at each match end. -/
def finditerGo (f : Nat → Option (α × Nat)) (stop : Nat) : Nat → Nat → List (Nat × α × Nat)
  | _, 0 => []
  | i, fuel + 1 =>
    match findFrom f i stop with
    | none => []
    | some (p, a, e) => (p, a, e) :: finditerGo f stop (max e (p + 1)) fuel

def finditer (f : Nat → Option (α × Nat)) (stop : Nat) : List (Nat × α × Nat) :=
  finditerGo f stop 0 (stop + 1)

/-- Literal string match at a position (a `re.escape`d literal). -/
def litAt (w : Str) (t : Str) (i : Nat) : Option Nat :=
  if w.isPrefixOf (t.drop i) then some (i + w.length) else none

/-- End of the whitespace run starting at `i` (`\s*`). -/
def wsEnd (t : Str) (i : Nat) : Nat := i + takeWhileLen isPySpace (t.drop i)

/-- Identifier `[A-Za-z_][\w]*` at a position, returning (capture, end). -/
def identAt (t : Str) (i : Nat) : Option (Str × Nat) :=
  match t.drop i with
  | [] => none
  | c :: rest =>
    if isIdentStart c then
      let n := takeWhileLen isWordChar rest + 1
      some (slice t i (i + n), i + n)
    else none

/-- End of the maximal run of characters satisfying `p` starting at `i`. -/
def classEnd (p : Char → Bool) (t : Str) (i : Nat) : Nat := i + takeWhileLen p (t.drop i)

/-- Word boundary `\b` immediately before position `i` (patterns here always
continue with a word character). -/
def boundaryAt (t : Str) (i : Nat) : Bool :=
  match i with
  | 0 => true
  | j + 1 =>
    match t.get? j with
    | some c => !isWordChar c
    | none => true

/-- Keyword with `\b` on both sides. -/
def kwAt (w : Str) (t : Str) (i : Nat) : Option Nat :=
  if boundaryAt t i then
    match litAt w t i with
    | some e =>
      match t.get? e with
      | some c => if isWordChar c then none else some e
      | none => some e
    | none => none
  else none

/-- Index of the last newline of a list, if any. -/
def lastNlIdx : Str → Option Nat
  | [] => none
  | c :: rest =>
    match lastNlIdx rest with
    | some j => some (j + 1)
    | none => if c = '\n' then some 0 else none

/-- Source `line_col`: 1-based line and column of a position. -/
def lineCol (t : Str) (pos : Nat) : Nat × Nat :=
  let pre := t.take pos
  let line := pre.count '\n' + 1
  match lastNlIdx pre with
  | some j => (line, pos - j)
  | none => (line, pos + 1)

/-- Source `find_block_end` body: scan forward counting `{`/`}` from depth 0,
returning the index where the depth returns to zero. -/
def findBlockEndAux : Str → Nat → Int → Option Nat
  | [], _, _ => none
  | c :: rest, idx, depth =>
    if c = '{' then findBlockEndAux rest (idx + 1) (depth + 1)
    else if c = '}' then
      if depth - 1 = 0 then some idx else findBlockEndAux rest (idx + 1) (depth - 1)
    else findBlockEndAux rest (idx + 1) depth

/-- Kotlin/Swift `find_block_end` (falls back to `len(text) - 1`). -/
def findBlockEnd (t : Str) (braceStart : Nat) : Nat :=
  (findBlockEndAux (t.drop braceStart) braceStart 0).getD (t.length - 1)

/-- Source `text.find("\n", idx)` with `-1` mapped to `len(text)`. -/
def newlineFrom (t : Str) (i : Nat) : Nat :=
  match findFrom (fun j => if t.get? j = some '\n' then some () else none) i t.length with
  | some (j, _) => j
  | none => t.length

/-- Shared `extract_guard_region` of the Kotlin and Swift detectors. -/
def extractGuardRegion (t : Str) (matchEnd : Nat) : Str × Nat :=
  let idx := wsEnd t matchEnd
  if t.get? idx = some '{' then
    let be := findBlockEnd t idx
    (slice t idx (be + 1), be + 1)
  else
    let nl := newlineFrom t idx
    (slice t idx nl, nl)

/-- Python set-based de-duplication loop shared by the Kotlin reporter. -/
def dedupGo [DecidableEq α] (seen : List α) : List α → List α
  | [] => []
  | x :: rest => if x ∈ seen then dedupGo seen rest else x :: dedupGo (x :: seen) rest

/- ### String literals shared by the matchers -/

def kwIf : Str := "if".data
def kwNull : Str := "null".data
def kwNil : Str := "nil".data
def kwReturn : Str := "return".data
def kwThrow : Str := "throw".data
def kwContinue : Str := "continue".data
def kwBreak : Str := "break".data
def kwVal : Str := "val".data
def kwVar : Str := "var".data
def kwLet : Str := "let".data
def kwGuard : Str := "guard".data
def kwElse : Str := "else".data
def kwSome : Str := "Some".data
def kwOk : Str := "Ok".data
def kwUnwrap : Str := "unwrap".data
def kwExpect : Str := "expect".data
def strLParen : Str := "(".data
def strRParen : Str := ")".data
def strLBrace : Str := "\x7b".data
def strEq : Str := "=".data
def strEqEq : Str := "==".data
def strEqEqEq : Str := "===".data
def strBangEq : Str := "!=".data
def strBang : Str := "!".data
def strBangBang : Str := "!!".data
def strQDot : Str := "?.".data
def strAsQ : Str := "as?".data
def strQColon : Str := "?:".data
def strDot : Str := ".".data

/-- Pattern `{name}\s*{lit}` (e.g. forced access and reassignment templates). -/
def nameWsLit (name l : Str) (t : Str) (i : Nat) : Option Nat := do
  let a ← litAt name t i
  litAt l t (wsEnd t a)

/- ## Kotlin detector (`type_narrowing_kotlin.py`) -/

/-- `{name}\s*!!`. -/
def doubleBangAt (name : Str) (t : Str) (i : Nat) : Option Nat := nameWsLit name strBangBang t i

/-- `{name}\s*=`. -/
def assignAt (name : Str) (t : Str) (i : Nat) : Option Nat := nameWsLit name strEq t i

/-- Match of `\b(return|throw|continue|break)\b` at a position. -/
def kotlinExitAt (t : Str) (i : Nat) : Option Nat :=
  (kwAt kwReturn t i).orElse fun _ =>
  (kwAt kwThrow t i).orElse fun _ =>
  (kwAt kwContinue t i).orElse fun _ =>
  kwAt kwBreak t i

/-- Source `contains_exit`: does `EXIT_PATTERN` match anywhere in the block? -/
def containsExit (block : Str) : Bool :=
  (findFrom (kotlinExitAt block) 0 block.length).isSome

/-- `(?:==|===)\s*null`, with the alternation order of the source pattern. -/
def kotlinEqNullEnd (t : Str) (i : Nat) : Option Nat :=
  ((litAt strEqEq t i).bind fun a => litAt kwNull t (wsEnd t a)).orElse fun _ =>
  (litAt strEqEqEq t i).bind fun a => litAt kwNull t (wsEnd t a)

/-- `NEGATIVE_GUARD_PATTERN`: `if\s*\(\s*([A-Za-z_][\w]*)\s*(?:==|===)\s*null[^)]*\)`. -/
def kotlinNegGuardAt (t : Str) (i : Nat) : Option (Str × Nat) := do
  let i1 ← litAt kwIf t i
  let i2 ← litAt strLParen t (wsEnd t i1)
  let (name, i3) ← identAt t (wsEnd t i2)
  let i4 ← kotlinEqNullEnd t (wsEnd t i3)
  let i5 := classEnd (fun c => c != ')') t i4
  let i6 ← litAt strRParen t i5
  pure (name, i6)

/-- `POSITIVE_GUARD_PATTERN`: `if\s*\(\s*([A-Za-z_][\w]*)\s*!=\s*null[^)]*\)`. -/
def kotlinPosGuardAt (t : Str) (i : Nat) : Option (Str × Nat) := do
  let i1 ← litAt kwIf t i
  let i2 ← litAt strLParen t (wsEnd t i1)
  let (name, i3) ← identAt t (wsEnd t i2)
  let i4 ← litAt strBangEq t (wsEnd t i3)
  let i5 ← litAt kwNull t (wsEnd t i4)
  let i6 := classEnd (fun c => c != ')') t i5
  let i7 ← litAt strRParen t i6
  pure (name, i7)

/-- `SAFE_CALL_GUARD_PATTERN`: `if\s*\(\s*([A-Za-z_][\w]*)\s*\?\.[^)]*\)`. -/
def kotlinSafeCallGuardAt (t : Str) (i : Nat) : Option (Str × Nat) := do
  let i1 ← litAt kwIf t i
  let i2 ← litAt strLParen t (wsEnd t i1)
  let (name, i3) ← identAt t (wsEnd t i2)
  let i4 ← litAt strQDot t (wsEnd t i3)
  let i5 := classEnd (fun c => c != ')') t i4
  let i6 ← litAt strRParen t i5
  pure (name, i6)

abbrev KIssue := Nat × Nat × String

def msgKotlinNeg (name : Str) : String :=
  String.mk name ++ "!! after non-exiting null guard"

def msgKotlinPos (name : Str) : String :=
  String.mk name ++ "!! used after \x27!= null\x27 guard without exit"

def msgKotlinSafe (name : Str) : String :=
  String.mk name ++ "!! used after ?. guard without exit"

/-- Body of the `for match in pattern.finditer(text)` loop of
`collect_guard_issues` (the inner `while True` always breaks after its
first iteration, so it contributes at most one issue per match). -/
def kotlinProcessMatch (t : Str) (name : Str) (mEnd : Nat) (msg : Str → String) :
    Option KIssue :=
  let r := extractGuardRegion t mEnd
  if containsExit r.1 then none
  else
    match findFrom (fun j => doubleBangAt name t j) r.2 t.length with
    | none => none
    | some (p, _) =>
      match findFrom (fun j =>
          match assignAt name t j with
          | some e => if e ≤ p then some e else none
          | none => none) r.2 p with
      | some _ => none
      | none => some ((lineCol t p).1, (lineCol t p).2, msg name)

/-- Source `collect_guard_issues`. -/
def kotlinCollectGuardIssues (t : Str) (pat : Str → Nat → Option (Str × Nat))
    (msg : Str → String) : List KIssue :=
  (finditer (pat t) t.length).filterMap fun m => kotlinProcessMatch t m.2.1 m.2.2 msg

/-- `as\?\s+[A-Za-z0-9_.]+` tail of `SMART_CAST_PATTERN`. -/
def kotlinAsCastTail (t : Str) (j : Nat) : Option Nat := do
  let a ← litAt strAsQ t j
  let w := takeWhileLen isPySpace (t.drop a)
  if w = 0 then none else
  let b := a + w
  let c := takeWhileLen (fun c => c.isAlpha || c.isDigit || c = '_' || c = '.') (t.drop b)
  if c = 0 then none else some (b + c)

/-- Greedy backtracking over a `[^;\n]+` run: the largest split that lets the
tail match, as the regex engine would choose. -/
def largestSplit (check : Nat → Option Nat) : Nat → Option Nat
  | 0 => none
  | k + 1 =>
    match check (k + 1) with
    | some e => some e
    | none => largestSplit check k

/-- Common prelude `\b(?:val|var)\s+([A-Za-z_][\w]*)\s*=\s*` of the smart-cast
and Elvis patterns, returning (capture, position after `=\s*`). -/
def kotlinValVarPrelude (t : Str) (i : Nat) : Option (Str × Nat) := do
  if boundaryAt t i then
    let i1 ← (litAt kwVal t i).orElse fun _ => litAt kwVar t i
    let w := takeWhileLen isPySpace (t.drop i1)
    if w = 0 then none else
    let (name, i2) ← identAt t (i1 + w)
    let i3 ← litAt strEq t (wsEnd t i2)
    pure (name, wsEnd t i3)
  else none

/-- `SMART_CAST_PATTERN`: `\b(?:val|var)\s+([A-Za-z_][\w]*)\s*=\s*[^;\n]+as\?\s+[A-Za-z0-9_.]+`. -/
def kotlinSmartCastAt (t : Str) (i : Nat) : Option (Str × Nat) := do
  let (name, p) ← kotlinValVarPrelude t i
  let run := takeWhileLen (fun c => c != ';' && c != '\n') (t.drop p)
  let e ← largestSplit (fun k => kotlinAsCastTail t (p + k)) run
  pure (name, e)

/-- Lazy `[^;\n]+?\?:` tail of `ELVIS_ASSIGN_PATTERN`: smallest split. -/
def lazyElvisGo (t : Str) (base : Nat) : Nat → Nat → Option Nat
  | _, 0 => none
  | k, fuel + 1 =>
    match litAt strQColon t (base + k) with
    | some e => some e
    | none =>
      match t.get? (base + k) with
      | some c => if c != ';' && c != '\n' then lazyElvisGo t base (k + 1) fuel else none
      | none => none

def lazyElvis (t : Str) (base : Nat) : Option Nat :=
  match t.get? base with
  | some c => if c != ';' && c != '\n' then lazyElvisGo t base 1 (t.length + 1) else none
  | none => none

/-- `ELVIS_ASSIGN_PATTERN`: `\b(?:val|var)\s+([A-Za-z_][\w]*)\s*=\s*[^;\n]+?\?:`. -/
def kotlinElvisAt (t : Str) (i : Nat) : Option (Str × Nat) := do
  let (name, p) ← kotlinValVarPrelude t i
  let e ← lazyElvis t p
  pure (name, e)

/-- Source `collect_double_bang_usage`. -/
def kotlinDoubleBangUsage (t : Str) (name : Str) (start : Nat) : Option (Nat × Nat) :=
  match findFrom (fun j => doubleBangAt name t j) start t.length with
  | some (p, _) => some (lineCol t p)
  | none => none

/-- Source `collect_smart_cast_issues`. -/
def kotlinSmartCastIssues (t : Str) : List KIssue :=
  (finditer (kotlinSmartCastAt t) t.length).filterMap fun m =>
    match kotlinDoubleBangUsage t m.2.1 m.2.2 with
    | some (line, col) =>
        some (line, col, String.mk m.2.1 ++ " forced (!!) after as? smart cast")
    | none => none

/-- Source `collect_elvis_issues`. -/
def kotlinElvisIssues (t : Str) : List KIssue :=
  (finditer (kotlinElvisAt t) t.length).filterMap fun m =>
    match kotlinDoubleBangUsage t m.2.1 m.2.2 with
    | some (line, col) =>
        some (line, col, String.mk m.2.1 ++ " assigned via Elvis operator but later forced with !!")
    | none => none

/-- Source `analyze_file` (Kotlin) on the decoded text: the five collectors
followed by the seen-set de-duplication pass. -/
def kotlinAnalyzeText (t : Str) : List KIssue :=
  dedupGo []
    (kotlinCollectGuardIssues t kotlinNegGuardAt msgKotlinNeg ++
     kotlinCollectGuardIssues t kotlinPosGuardAt msgKotlinPos ++
     kotlinCollectGuardIssues t kotlinSafeCallGuardAt msgKotlinSafe ++
     kotlinSmartCastIssues t ++
     kotlinElvisIssues t)

/- ## Swift detector (`type_narrowing_swift.py`) -/

/-- Drop characters of a line comment body: `//.*?$` leaves the newline in place. -/
def dropToNl : Str → Str
  | [] => []
  | c :: rest => if c = '\n' then c :: rest else dropToNl rest

/-- Number of characters up to and including the first `*/`, if any. -/
def findCloseCC : Str → Option Nat
  | '*' :: '/' :: _ => some 2
  | _ :: rest => (findCloseCC rest).map (· + 1)
  | [] => none

/-- Source `COMMENT_PATTERN.sub("", block)`: remove `//.*?$` and `/*.*?*/`. -/
def swiftStripCommentsGo : Nat → Str → Str
  | 0, _ => []
  | _, [] => []
  | fuel + 1, '/' :: '/' :: rest => swiftStripCommentsGo fuel (dropToNl rest)
  | fuel + 1, '/' :: '*' :: rest =>
    (match findCloseCC rest with
     | some n => swiftStripCommentsGo fuel (rest.drop n)
     | none => '/' :: swiftStripCommentsGo fuel ('*' :: rest))
  | fuel + 1, c :: rest => c :: swiftStripCommentsGo fuel rest

/-- Source `COMMENT_PATTERN.sub("", block)`: delete `//.*?$` (up to, not
including, the newline) and `/*.*?*/` matches, scanning left to right.
Every recursive step strictly shortens the text, so `length + 1` fuel is
always enough. -/
def swiftStripComments (l : Str) : Str := swiftStripCommentsGo (l.length + 1) l

def toLowerStr (s : Str) : Str := s.map Char.toLower

/-- Python substring containment (`needle in hay`). -/
def containsSub (needle : Str) : Str → Bool
  | [] => needle.isEmpty
  | c :: rest => needle.isPrefixOf (c :: rest) || containsSub needle rest

def swiftExitKeywords : List Str :=
  [kwReturn, kwThrow, kwBreak, kwContinue, "fatalError".data, "preconditionFailure".data]

/-- Source `block_has_exit`: strip comments, lowercase, substring containment. -/
def swiftBlockHasExit (block : Str) : Bool :=
  let lower := toLowerStr (swiftStripComments block)
  swiftExitKeywords.any fun kw => containsSub (toLowerStr kw) lower

/-- Common `if\s*\(?\s*([A-Za-z_][\w]*)` prelude of the three Swift nil-guard
patterns (the optional parenthesis is deterministic: an identifier can never
start at a `(`, so failing after consuming it cannot be repaired). -/
def swiftIfGuardPrelude (t : Str) (i : Nat) : Option (Str × Nat) := do
  let i1 ← litAt kwIf t i
  let i2 := wsEnd t i1
  let i3 := match t.get? i2 with
    | some '(' => wsEnd t (i2 + 1)
    | _ => i2
  identAt t i3

/-- `[^)\{]*\)?` tail shared by the Swift guard patterns. -/
def swiftGuardTail (t : Str) (i : Nat) : Nat :=
  let j := classEnd (fun c => c != ')' && c != '\x7b') t i
  match t.get? j with
  | some ')' => j + 1
  | _ => j

/-- `NEGATIVE_NIL_GUARD`: `if\s*\(?\s*([A-Za-z_][\w]*)\s*==\s*nil[^)\{]*\)?`. -/
def swiftNegNilGuardAt (t : Str) (i : Nat) : Option (Str × Nat) := do
  let (name, i4) ← swiftIfGuardPrelude t i
  let i5 ← litAt strEqEq t (wsEnd t i4)
  let i6 ← litAt kwNil t (wsEnd t i5)
  pure (name, swiftGuardTail t i6)

/-- `POSITIVE_NIL_GUARD`: `if\s*\(?\s*([A-Za-z_][\w]*)\s*!=\s*nil[^)\{]*\)?`. -/
def swiftPosNilGuardAt (t : Str) (i : Nat) : Option (Str × Nat) := do
  let (name, i4) ← swiftIfGuardPrelude t i
  let i5 ← litAt strBangEq t (wsEnd t i4)
  let i6 ← litAt kwNil t (wsEnd t i5)
  pure (name, swiftGuardTail t i6)

/-- `OPTIONAL_CHAIN_GUARD`: `if\s*\(?\s*([A-Za-z_][\w]*)\s*\?\.[^)\{]*\)?`. -/
def swiftOptChainGuardAt (t : Str) (i : Nat) : Option (Str × Nat) := do
  let (name, i4) ← swiftIfGuardPrelude t i
  let i5 ← litAt strQDot t (wsEnd t i4)
  pure (name, swiftGuardTail t i5)

/-- `FORCE_TEMPLATE`: `{name}\s*!`. -/
def swiftForceAt (name : Str) (t : Str) (i : Nat) : Option Nat := nameWsLit name strBang t i

def msgSwiftNeg (name : Str) : String :=
  String.mk name ++ "! used after == nil guard without exit"

def msgSwiftPos (name : Str) : String :=
  String.mk name ++ "! used after \x27!= nil\x27 guard without exit"

def msgSwiftChain (name : Str) : String :=
  String.mk name ++ "! forced after ?. guard without exit"

/-- Body of the per-match loop of the Swift `collect_guard_issues` (its inner
`while True` always breaks after one iteration, so at most one issue per match). -/
def swiftProcessMatch (t name : Str) (mEnd : Nat) (msg : Str → String)
    (skipOnExit : Bool) : Option KIssue :=
  let r := extractGuardRegion t mEnd
  if skipOnExit && swiftBlockHasExit r.1 then none
  else
    match findFrom (fun j => swiftForceAt name t j) r.2 t.length with
    | none => none
    | some (p, _) =>
      match findFrom (fun j =>
          match assignAt name t j with
          | some e => if e ≤ p then some e else none
          | none => none) r.2 p with
      | some _ => none
      | none => some ((lineCol t p).1, (lineCol t p).2, msg name)

/-- Source `collect_guard_issues` (Swift), with its per-pattern `skip_on_exit` tag. -/
def swiftCollectGuardIssues (t : Str) (pat : Str → Nat → Option (Str × Nat))
    (msg : Str → String) (skipOnExit : Bool) : List KIssue :=
  (finditer (pat t) t.length).filterMap fun m =>
    swiftProcessMatch t m.2.1 m.2.2 msg skipOnExit

/-- `\s+else\s*\{` tail of `GUARD_PATTERN`. -/
def swiftElseTail (t : Str) (j : Nat) : Option Nat := do
  let w := takeWhileLen isPySpace (t.drop j)
  if w = 0 then none else
  let a ← litAt kwElse t (j + w)
  litAt strLBrace t (wsEnd t a)

/-- `GUARD_PATTERN`: `guard\s+let\s+([A-Za-z_][\w]*)\s*=\s*[^\n]+\s+else\s*\{`
(the greedy `[^\n]+` backtracks from its maximal extent, so the split chosen
is the largest one whose tail matches). -/
def swiftGuardLetAt (t : Str) (i : Nat) : Option (Str × Nat) := do
  let i1 ← litAt kwGuard t i
  let w1 := takeWhileLen isPySpace (t.drop i1)
  if w1 = 0 then none else
  let i2 ← litAt kwLet t (i1 + w1)
  let w2 := takeWhileLen isPySpace (t.drop i2)
  if w2 = 0 then none else
  let (name, i3) ← identAt t (i2 + w2)
  let i4 ← litAt strEq t (wsEnd t i3)
  let p := wsEnd t i4
  let run := takeWhileLen (fun c => c != '\n') (t.drop p)
  let e ← largestSplit (fun k => swiftElseTail t (p + k)) run
  pure (name, e)

/-- The guard-let half of the Swift `analyze_file`. -/
def swiftGuardLetIssues (t : Str) : List KIssue :=
  (finditer (swiftGuardLetAt t) t.length).filterMap fun m =>
    let blockStart := m.2.2
    let blockEnd := findBlockEnd t blockStart
    let blockText := slice t blockStart blockEnd
    if swiftBlockHasExit blockText then none
    else some ((lineCol t blockStart).1, (lineCol t blockStart).2,
      "guard let \x27" ++ String.mk m.2.1 ++ "\x27 else-block does not exit before continuing")

/-- Source `analyze_file` (Swift) on the decoded text. Unlike the Kotlin
detector there is no de-duplication pass. -/
def swiftAnalyzeText (t : Str) : List KIssue :=
  swiftCollectGuardIssues t swiftNegNilGuardAt msgSwiftNeg true ++
  swiftCollectGuardIssues t swiftPosNilGuardAt msgSwiftPos false ++
  swiftCollectGuardIssues t swiftOptChainGuardAt msgSwiftChain false ++
  swiftGuardLetIssues t

/- ## Rust detector, text level (`type_narrowing_rust.py`) -/

/-- Rust `EXIT_PATTERN`: `\b(return|break|continue)\b` at a position. -/
def rustExitAt (t : Str) (i : Nat) : Option Nat :=
  (kwAt kwReturn t i).orElse fun _ =>
  (kwAt kwBreak t i).orElse fun _ =>
  kwAt kwContinue t i

def rustContainsExit (block : Str) : Bool :=
  (findFrom (rustExitAt block) 0 block.length).isSome

/-- `UNWRAP_PATTERN`: `{name}\s*\.(?:unwrap|expect)\s*\(`. -/
def unwrapAt (name : Str) (t : Str) (i : Nat) : Option Nat := do
  let a ← litAt name t i
  let b ← litAt strDot t (wsEnd t a)
  let c ← (litAt kwUnwrap t b).orElse fun _ => litAt kwExpect t b
  litAt strLParen t (wsEnd t c)

/-- Rust `find_block_end` (falls back to `len(text)`, unlike Kotlin/Swift). -/
def rustFindBlockEnd (t : Str) (start : Nat) : Nat :=
  (findBlockEndAux (t.drop start) start 0).getD t.length

/-- Python `str.strip()` on ASCII whitespace. -/
def pyStrip (s : Str) : Str :=
  ((s.dropWhile (isPySpace ·)).reverse.dropWhile (isPySpace ·)).reverse

def rustMsg (expr : Str) : String := String.mk expr ++ " unwrap/expect after partial guard"

/-- Source `analyze_guard`: exit check on the guard's byte range, first
reassignment truncates the remainder, then the first unwrap/expect. -/
def rustAnalyzeGuard (t : Str) (expr : Str) (gstart gstop : Nat) : Option (Nat × Nat) :=
  let blockText := slice t gstart gstop
  if rustContainsExit blockText then none
  else
    let remainder := t.drop gstop
    let searchRegion :=
      match findFrom (fun j => assignAt expr remainder j) 0 remainder.length with
      | some (q, _) => remainder.take q
      | none => remainder
    match findFrom (fun j => unwrapAt expr searchRegion j) 0 searchRegion.length with
    | none => none
    | some (u, _) => some (lineCol t (gstop + u))

/-- Rust regex-path `GUARD_PATTERN`:
`if\s+let\s+(?:Some|Ok)\s*\([^)]*\)\s*=\s*([A-Za-z_][A-Za-z0-9_]*)\s*\{`. -/
def rustRegexGuardAt (t : Str) (i : Nat) : Option (Str × Nat) := do
  let i1 ← litAt kwIf t i
  let w1 := takeWhileLen isPySpace (t.drop i1)
  if w1 = 0 then none else
  let i2 ← litAt kwLet t (i1 + w1)
  let w2 := takeWhileLen isPySpace (t.drop i2)
  if w2 = 0 then none else
  let i3 ← (litAt kwSome t (i2 + w2)).orElse fun _ => litAt kwOk t (i2 + w2)
  let i4 ← litAt strLParen t (wsEnd t i3)
  let i5 := classEnd (fun c => c != ')') t i4
  let i6 ← litAt strRParen t i5
  let i7 ← litAt strEq t (wsEnd t i6)
  let (name, i8) ← identAt t (wsEnd t i7)
  let i9 ← litAt strLBrace t (wsEnd t i8)
  pure (name, i9)

/-- Source `analyze_file_regex` on the decoded text. -/
def rustAnalyzeFileRegex (t : Str) : List KIssue :=
  (finditer (rustRegexGuardAt t) t.length).filterMap fun m =>
    match findFrom (fun j => if t.get? j = some '\x7b' then some () else none) m.1 t.length with
    | none => none
    | some (braceStart, _) =>
      let braceEnd := rustFindBlockEnd t braceStart
      let blockText := slice t m.1 braceEnd
      if rustContainsExit blockText then none
      else
        let remainder := t.drop (braceEnd + 1)
        if (pyStrip remainder).isEmpty then none
        else
          let searchRegion :=
            match findFrom (fun j => assignAt m.2.1 remainder j) 0 remainder.length with
            | some (q, _) => remainder.take q
            | none => remainder
          match findFrom (fun j => unwrapAt m.2.1 searchRegion j) 0 searchRegion.length with
          | none => none
          | some (u, _) =>
            some ((lineCol t (braceEnd + 1 + u)).1, (lineCol t (braceEnd + 1 + u)).2,
              rustMsg m.2.1)

/- ## Java detector (`resource_lifecycle_java.py`) -/

inductive JMode
  | normal
  | lineC
  | blockC
  | textB
  | strL (quote : Char) (escaped : Bool)
deriving DecidableEq

/-- Source `mask_char`. -/
def maskChar (c : Char) : Char := if c = '\n' then '\n' else ' '

/-- The `strip_comments` scanning loop. Each clause consumes exactly the
characters the source consumes in that state and emits one output character
per consumed character. -/
def stripGo : JMode → Str → Str
  | _, [] => []
  | JMode.lineC, c :: rest =>
      maskChar c :: stripGo (if c = '\n' then JMode.normal else JMode.lineC) rest
  | JMode.blockC, '*' :: '/' :: rest => ' ' :: ' ' :: stripGo JMode.normal rest
  | JMode.blockC, c :: rest => maskChar c :: stripGo JMode.blockC rest
  | JMode.textB, '"' :: '"' :: '"' :: rest => '"' :: '"' :: '"' :: stripGo JMode.normal rest
  | JMode.textB, c :: rest => maskChar c :: stripGo JMode.textB rest
  | JMode.strL q true, c :: rest => maskChar c :: stripGo (JMode.strL q false) rest
  | JMode.strL q false, c :: rest =>
      if c = '\\' then ' ' :: stripGo (JMode.strL q true) rest
      else if c = q then c :: stripGo JMode.normal rest
      else maskChar c :: stripGo (JMode.strL q false) rest
  | JMode.normal, '"' :: '"' :: '"' :: rest => '"' :: '"' :: '"' :: stripGo JMode.textB rest
  | JMode.normal, '/' :: '/' :: rest => ' ' :: ' ' :: stripGo JMode.lineC rest
  | JMode.normal, '/' :: '*' :: rest => ' ' :: ' ' :: stripGo JMode.blockC rest
  | JMode.normal, c :: rest =>
      if c = '"' || c = '\'' then c :: stripGo (JMode.strL c false) rest
      else c :: stripGo JMode.normal rest

/-- Source `strip_comments`. -/
def javaStripComments (t : Str) : Str := stripGo JMode.normal t

/-- Companion of `stripGo` marking, position by position, whether the scanner
masked the character (it was inside a comment, a string/char literal body or a
text-block body) or emitted it verbatim (code, quote delimiters). -/
def stripFlags : JMode → Str → List Bool
  | _, [] => []
  | JMode.lineC, c :: rest =>
      true :: stripFlags (if c = '\n' then JMode.normal else JMode.lineC) rest
  | JMode.blockC, '*' :: '/' :: rest => true :: true :: stripFlags JMode.normal rest
  | JMode.blockC, _ :: rest => true :: stripFlags JMode.blockC rest
  | JMode.textB, '"' :: '"' :: '"' :: rest => false :: false :: false :: stripFlags JMode.normal rest
  | JMode.textB, _ :: rest => true :: stripFlags JMode.textB rest
  | JMode.strL q true, _ :: rest => true :: stripFlags (JMode.strL q false) rest
  | JMode.strL q false, c :: rest =>
      if c = '\\' then true :: stripFlags (JMode.strL q true) rest
      else if c = q then false :: stripFlags JMode.normal rest
      else true :: stripFlags (JMode.strL q false) rest
  | JMode.normal, '"' :: '"' :: '"' :: rest => false :: false :: false :: stripFlags JMode.textB rest
  | JMode.normal, '/' :: '/' :: rest => true :: true :: stripFlags JMode.lineC rest
  | JMode.normal, '/' :: '*' :: rest => true :: true :: stripFlags JMode.blockC rest
  | JMode.normal, c :: rest =>
      if c = '"' || c = '\'' then false :: stripFlags (JMode.strL c false) rest
      else false :: stripFlags JMode.normal rest

def kwTry : Str := "try".data
def strDotClose : Str := ".close".data
def strUnderscore : Str := "_".data
def strSemi : Str := ";".data

def jdbcStatementKeywords : List Str :=
  ["PreparedStatement".data, "CallableStatement".data, "Statement".data]

def jdbcResultSetKeywords : List Str := ["ResultSet".data]

/-- Ordered alternation of escaped literals (first matching branch wins;
the branches start with pairwise distinct characters). -/
def firstLit : List Str → Str → Nat → Option Nat
  | [], _, _ => none
  | w :: ws, t, i => (litAt w t i).orElse fun _ => firstLit ws t i

/-- `\b(?:…)\s+([A-Za-z_][A-Za-z0-9_]*)\s*=.*?;` with `re.DOTALL`:
the lazy `.*?;` reaches exactly to the first `;`. -/
def javaDeclAt (kws : List Str) (t : Str) (i : Nat) : Option (Str × Nat) := do
  if boundaryAt t i then
    let i1 ← firstLit kws t i
    let w := takeWhileLen isPySpace (t.drop i1)
    if w = 0 then none else
    let (name, i2) ← identAt t (i1 + w)
    let i3 ← litAt strEq t (wsEnd t i2)
    match findFrom (fun j => if t.get? j = some ';' then some () else none) i3 t.length with
    | some (j, _) => some (name, j + 1)
    | none => none
  else none

def javaStatementAt (t : Str) (i : Nat) : Option (Str × Nat) := javaDeclAt jdbcStatementKeywords t i

def javaResultSetAt (t : Str) (i : Nat) : Option (Str × Nat) := javaDeclAt jdbcResultSetKeywords t i

/-- `TRY_RE`: `\btry\s*\(`. -/
def tryAt (t : Str) (i : Nat) : Option Nat := do
  if boundaryAt t i then
    let e ← litAt kwTry t i
    litAt strLParen t (wsEnd t e)
  else none

/-- Last `try (` match that fits before `stop` (the source iterates
`TRY_RE.finditer(text, 0, start)` keeping the last candidate; `try (`
matches can never overlap, so this is the greatest matching position).
Returns the match end. -/
def javaLastTryGo (t : Str) (stop : Nat) : Nat → Option Nat
  | 0 => none
  | k + 1 =>
    match tryAt t k with
    | some e => if e ≤ stop then some e else javaLastTryGo t stop k
    | none => javaLastTryGo t stop k

def javaLastTry (t : Str) (stop : Nat) : Option Nat := javaLastTryGo t stop stop

/-- Parenthesis scan of `inside_try_with` starting at depth 1. -/
def parenDepthScan : Str → Int → Bool
  | [], depth => depth > 0
  | c :: rest, depth =>
    if c = '(' then parenDepthScan rest (depth + 1)
    else if c = ')' then
      if depth - 1 = 0 then false else parenDepthScan rest (depth - 1)
    else parenDepthScan rest depth

/-- Source `inside_try_with`. -/
def insideTryWith (t : Str) (start : Nat) : Bool :=
  match javaLastTry t start with
  | none => false
  | some e => parenDepthScan (slice t e start) 1

/-- `\b{name}\.close\s*\(` at a position. -/
def closeAt (name : Str) (t : Str) (i : Nat) : Option Nat := do
  if boundaryAt t i then
    let a ← litAt name t i
    let b ← litAt strDotClose t a
    litAt strLParen t (wsEnd t b)
  else none

/-- Source `has_close`: the pattern is searched over the whole masked text. -/
def hasClose (name : Str) (t : Str) : Bool :=
  (findFrom (closeAt name t) 0 t.length).isSome

def strStmtHandle : String := "statement_handle"
def strRsHandle : String := "resultset_handle"

/-- Body of the `for match in regex.finditer(code_text)` loop of
`handle_matches`: `_`-named declarations are skipped, the line number is
computed on the original text, and a declaration is reported unless it sits
in a still-open `try (` argument list or a `{name}.close(` occurs anywhere
in the masked text. -/
def javaProcessDecl (text code : Str) (kind : String) (m : Nat × Str × Nat) :
    Option (String × Nat) :=
  if m.2.1 = strUnderscore then none
  else
    let lineNo := (text.take m.1).count '\n' + 1
    if insideTryWith code m.1 then none
    else if hasClose m.2.1 code then none
    else some (kind, lineNo)

/-- Per-file half of `collect_issues`: blank files are skipped, the masked
text drives the matchers, statement findings precede result-set findings. -/
def javaFileIssues (text : Str) : List (String × Nat) :=
  if (pyStrip text).isEmpty then []
  else
    let code := javaStripComments text
    ((finditer (javaStatementAt code) code.length).filterMap
        (javaProcessDecl text code strStmtHandle)) ++
    ((finditer (javaResultSetAt code) code.length).filterMap
        (javaProcessDecl text code strRsHandle))

/- ## Python resource-lifecycle analyzer (`resource_lifecycle_py.py`)

`ResourceRecord` objects are shared between `Analyzer.records` and the
per-scope `by_name` tables, so records live in one indexed store
(`List PyRecord`, index = creation order) and scopes hold record indices. -/

structure PyRecord where
  name : Option String
  kind : String
  lineno : Nat
  released : Bool
deriving DecidableEq

structure PyScope where
  byName : List (String × List Nat)
deriving DecidableEq

def emptyScope : PyScope := ⟨[]⟩

/-- `scope.by_name.get(name)` with Python falsiness (`None` and `[]` both skip). -/
def lookupByName (s : PyScope) (n : String) : List Nat :=
  match s.byName.lookup n with
  | some l => l
  | none => []

/-- `by_name.setdefault(name, []).append(rec)`. -/
def byNameAppend (l : List (String × List Nat)) (n : String) (id : Nat) :
    List (String × List Nat) :=
  match l with
  | [] => [(n, [id])]
  | (k, v) :: rest => if k = n then (k, v ++ [id]) :: rest else (k, v) :: byNameAppend rest n id

/-- `not rec.released and (kind is None or rec.kind == kind)` for the record
stored at index `id`. -/
def openMatch (records : List PyRecord) (kind : Option String) (id : Nat) : Bool :=
  match records.get? id with
  | some r => !r.released && (kind = none || kind = some r.kind)
  | none => false

/-- Open record regardless of kind (the `kind is None` case). -/
def isOpenRec (records : List PyRecord) (id : Nat) : Bool :=
  match records.get? id with
  | some r => !r.released
  | none => false

/-- The scope loop of `_mark_released`: per scope take the first still-open,
kind-matching record of the name's entry list; otherwise continue outward. -/
def findTargetScopes (records : List PyRecord) (name : String) (kind : Option String) :
    List PyScope → Option Nat
  | [] => none
  | s :: rest =>
    match (lookupByName s name).find? (fun id => openMatch records kind id) with
    | some id => some id
    | none => findTargetScopes records name kind rest

def setReleased (records : List PyRecord) (id : Nat) : List PyRecord :=
  match records.get? id with
  | some r => records.set id { r with released := true }
  | none => records

/-- The scope stack, outermost first exactly like `Analyzer.scope_stack`
(`current_scope` is the last element, `reversed(...)` walks innermost first). -/
abbrev ScopeStack := List PyScope

def currentScope (stack : ScopeStack) : PyScope := stack.getLastD emptyScope

/-- Source `_mark_released`. Explicit release events pass
`check_all_scopes=False` (innermost scope only); return/yield ownership
transfer passes `check_all_scopes=True` and `kind=None`. -/
def markReleased (name : Option String) (kind : Option String) (checkAll : Bool)
    (stack : ScopeStack) (records : List PyRecord) : List PyRecord :=
  match name with
  | none => records
  | some n =>
    if n = "" then records
    else
      let scopes := if checkAll then stack.reverse else [currentScope stack]
      match findTargetScopes records n kind scopes with
      | some id => setReleased records id
      | none => records

/-- Source `_add_record`: append the record to the store and, when it is
named, to the current scope's `by_name` entry for that name. -/
def addRecord (name : Option String) (kind : String) (lineno : Nat)
    (stack : ScopeStack) (records : List PyRecord) : ScopeStack × List PyRecord :=
  let id := records.length
  let records' := records ++ [⟨name, kind, lineno, false⟩]
  match name with
  | none => (stack, records')
  | some n =>
    if n = "" then (stack, records')
    else
      match stack.reverse with
      | [] => (stack, records')
      | cur :: outer => ((⟨byNameAppend cur.byName n id⟩ :: outer).reverse, records')

/- The release events of the analyzer, as they call `_mark_released`. -/

def releaseMethodsFile : List String := ["close"]
def releaseMethodsSocket : List String := ["close", "shutdown"]
def releaseMethodsPopen : List String := ["wait", "communicate", "terminate", "kill"]
def releaseMethodsTask : List String := ["cancel"]

/-- The `for kind, methods in RELEASE_METHODS.items(): if method in methods:
… break` loop of `_handle_release`, in dictionary insertion order. -/
def releaseKindForMethod (method : String) : Option String :=
  if releaseMethodsFile.contains method then some "file_handle"
  else if releaseMethodsSocket.contains method then some "socket_handle"
  else if releaseMethodsPopen.contains method then some "popen_handle"
  else if releaseMethodsTask.contains method then some "asyncio_task"
  else none

/-- `_handle_release`, attribute-call branch: a recognized release-method
call on a receiver searches with `check_all_scopes` left at `False`. -/
def releaseMethodEvent (receiver : Option String) (method : String)
    (stack : ScopeStack) (records : List PyRecord) : List PyRecord :=
  match releaseKindForMethod method with
  | some kind => markReleased receiver (some kind) false stack records
  | none => records

/-- `visit_Await` on a bare name: innermost-scope search for a task record. -/
def awaitEvent (name : String) (stack : ScopeStack) (records : List PyRecord) :
    List PyRecord :=
  markReleased (some name) (some "asyncio_task") false stack records

/-- `_handle_release`, bulk-release branch (`asyncio.gather`/`wait`/`wait_for`
argument): innermost-scope search for a task record. -/
def bulkReleaseEvent (argName : String) (stack : ScopeStack) (records : List PyRecord) :
    List PyRecord :=
  markReleased (some argName) (some "asyncio_task") false stack records

/-- `_handle_return_yield` per collected name: `check_all_scopes=True`,
`kind=None`. -/
def returnYieldEvent (name : String) (stack : ScopeStack) (records : List PyRecord) :
    List PyRecord :=
  markReleased (some name) none true stack records

/- ## Rust detector, file walk, structural feed and entry point -/

/-- Resolved absolute paths as component lists; `BASE_DIR` is the resolved
process working directory. -/
abbrev RPath := List String

def rustSkipDirs : List String := ["target", ".git", ".hg", ".svn", "node_modules"]

/-- The file tree and feed environment a Rust detector run observes. -/
structure RustWorld where
  base : RPath
  isFile : RPath → Bool
  rglobRs : RPath → List RPath
  readText : RPath → Option Str

/-- Source `is_safe_path`: `path.resolve().relative_to(BASE_DIR)` succeeds
iff the base is a prefix of the resolved path. -/
def isSafePath (w : RustWorld) (p : RPath) : Bool := w.base.isPrefixOf p

/-- Python `Path.suffix == ".rs"` on the final component. -/
def hasRsSuffix (p : RPath) : Bool :=
  match p.getLast? with
  | some s => s.endsWith ".rs" && 4 ≤ s.length
  | none => false

def anySkipPart (parts : List String) : Bool := parts.any (rustSkipDirs.contains ·)

/-- `path.relative_to(root)` with the `except ValueError: rel = path` fallback. -/
def relParts (root p : RPath) : List String :=
  if root.isPrefixOf p then p.drop root.length else p

/-- Source `iter_rust_files`. -/
def iterRustFiles (w : RustWorld) (root : RPath) : List RPath :=
  if !isSafePath w root then []
  else if w.isFile root then
    if hasRsSuffix root && !anySkipPart root then [root] else []
  else
    (w.rglobRs root).filter fun p =>
      w.isFile p && !anySkipPart (relParts root p) && isSafePath w p

structure RGuardMatch where
  path : RPath
  expr : Str
  gstart : Nat
  gstop : Nat
deriving DecidableEq

abbrev RustFinding := RPath × Nat × Nat × String

/-- Source `analyze_with_regex`: walk the tree, skip unreadable files,
run the regex analysis per file. -/
def analyzeWithRegex (w : RustWorld) (root : RPath) : List RustFinding :=
  (iterRustFiles w root).flatMap fun p =>
    match w.readText p with
    | none => []
    | some text => (rustAnalyzeFileRegex text).map fun iss => (p, iss)

/-- One parsed feed entry, with the fields `guard_from_match` consults
(`none` models a missing field, and for `file` also the falsy empty string). -/
structure FeedEntry where
  sourceText : Option Str
  start? : Option Nat
  stop? : Option Nat
  file? : Option RPath
deriving DecidableEq

/-- One line of the feed: blank, JSON-malformed, or a parsed object. -/
inductive FeedLine
  | blank
  | malformed
  | entry (e : FeedEntry)
deriving DecidableEq

/-- The feed as the detector can observe it: missing file, unreadable file,
or a sequence of lines. -/
inductive FeedModel
  | absent
  | unreadable
  | lines (ls : List FeedLine)
deriving DecidableEq

/-- `IDENT_PATTERN.match`: `^[A-Za-z_][A-Za-z0-9_]*$` (Python `$` also
matches just before one trailing newline). -/
def isIdentText (s : Str) : Bool :=
  match s with
  | [] => false
  | c :: rest =>
    isIdentStart c &&
      (rest.all isWordChar ||
        (match rest.getLast? with
         | some '\n' => rest.dropLast.all isWordChar
         | _ => false))

/-- Source `guard_from_match`. -/
def guardFromMatch (e : FeedEntry) : Option RGuardMatch := do
  let txt ← e.sourceText
  if !isIdentText txt then none else
  let s ← e.start?
  let en ← e.stop?
  let f ← e.file?
  pure ⟨f, txt, s, en⟩

/-- The usable guards of a feed line list: blank and malformed lines are
skipped, entries failing `guard_from_match` or outside the working
directory are silently discarded. -/
def feedGuards (w : RustWorld) (ls : List FeedLine) : List RGuardMatch :=
  ls.filterMap fun l =>
    match l with
    | FeedLine.blank => none
    | FeedLine.malformed => none
    | FeedLine.entry e =>
      match guardFromMatch e with
      | some g => if isSafePath w g.path then some g else none
      | none => none

/-- Source `analyze_with_ast_json`. -/
def analyzeWithAstJson (w : RustWorld) (root : RPath) (feed : FeedModel) :
    List RustFinding :=
  if !isSafePath w root then []
  else
    match feed with
    | FeedModel.absent => []
    | FeedModel.unreadable => []
    | FeedModel.lines ls =>
      let guards := feedGuards w ls
      if guards.isEmpty then []
      else
        guards.filterMap fun g =>
          match w.readText g.path with
          | none => none
          | some text =>
            match rustAnalyzeGuard text g.expr g.gstart g.gstop with
            | none => none
            | some (line, col) => some (g.path, line, col, rustMsg g.expr)

/-- The issue-selection logic of the Rust `main`: the structural feed's
results are used when non-empty, otherwise the regex scan runs — silently
and unconditionally. -/
def rustMainIssues (w : RustWorld) (root : RPath) (feed : Option FeedModel) :
    List RustFinding :=
  let issues :=
    match feed with
    | some f => analyzeWithAstJson w root f
    | none => []
  if issues.isEmpty then analyzeWithRegex w root else issues

/- ## CLI usage gates (`main` argument handling of the five detectors) -/

/-- Outcome of a detector invocation: exit code and emitted findings. -/
structure RunOutcome (α : Type) where
  exitCode : Nat
  findings : List α
deriving DecidableEq

/-- Kotlin `main`: `if len(sys.argv) < 2: … return 1` before any file walk. -/
def kotlinMainModel (argv : List String) (run : RunOutcome α) : RunOutcome α :=
  if argv.length < 2 then ⟨1, []⟩ else run

/-- Swift `main`: `if len(sys.argv) < 2: … return 1` before any file walk. -/
def swiftMainModel (argv : List String) (run : RunOutcome α) : RunOutcome α :=
  if argv.length < 2 then ⟨1, []⟩ else run

/-- Rust `main`: `if len(sys.argv) < 2: … return 1` before any file walk. -/
def rustMainModel (argv : List String) (run : RunOutcome α) : RunOutcome α :=
  if argv.length < 2 then ⟨1, []⟩ else run

/-- Java `main`: `if len(sys.argv) != 2: … return 2` before any file walk. -/
def javaMainModel (argv : List String) (run : RunOutcome α) : RunOutcome α :=
  if argv.length ≠ 2 then ⟨2, []⟩ else run

/-- Python `main`: `if len(sys.argv) != 2: … sys.exit(2)` before any file walk. -/
def pythonMainModel (argv : List String) (run : RunOutcome α) : RunOutcome α :=
  if argv.length ≠ 2 then ⟨2, []⟩ else run

/- ## Concrete example data for counterexamples and witnesses -/

def c1KotlinText : Str := "if (x != null) \x7b return \x7d\nx!!".data

def c1SwiftText : Str := "if (x != nil) \x7b return \x7d\nx!".data

def c7SwiftText : Str := "if (x?.a) \x7b f() \x7d\nif (x?.b) \x7b g() \x7d\nx!".data

def c5JavaText : Str := "s.close(); Statement s = c.q();".data

def c6KotlinText : Str := "if (x == null) \x7b f() \x7d\nx!!".data

def c8JavaText : Str := "a//b\nStatement s;".data

def c6SwiftText : Str := "if (y == nil) \x7b f() \x7d\ny!".data

def c6RustText : Str := "x.is_none();\nx.unwrap();".data

def c6KotlinText2 : Str := "if (z == null) \x7b f() \x7d\nz = 1\nz!!".data

def c5JavaText2 : Str := "Statement st = c.q();".data

def exRsFile : RPath := ["ws", "a.rs"]

def exWorld : RustWorld where
  base := ["ws"]
  isFile := fun p => decide (p = exRsFile)
  rglobRs := fun _ => [exRsFile]
  readText := fun _ => some []

def exFeedEntry : FeedEntry := ⟨some ("x".data), some 0, some 12, some exRsFile⟩

def exWorld2 : RustWorld where
  base := ["ws"]
  isFile := fun _ => false
  rglobRs := fun _ => []
  readText := fun _ => some c6RustText

def exC9Stack : ScopeStack := [⟨[("x", [0, 1])]⟩]

def exC9Records : List PyRecord :=
  [⟨some "x", "socket_handle", 1, false⟩, ⟨some "x", "asyncio_task", 2, false⟩]

/- # Theorems

First the generic search/list lemmas, then one theorem per claim. -/

theorem findFromGo_some {f : Nat → Option α} :
    ∀ {fuel start p : Nat} {a : α},
      findFromGo f start fuel = some (p, a) →
      start ≤ p ∧ p < start + fuel ∧ f p = some a ∧ ∀ j, start ≤ j → j < p → f j = none := by
  intro fuel
  induction fuel with
  | zero => intro start p a h; simp [findFromGo] at h
  | succ n ih =>
    intro start p a h
    rw [findFromGo] at h
    cases hfs : f start with
    | some b =>
      rw [hfs] at h
      simp at h
      obtain ⟨hp, hb⟩ := h
      subst hp
      exact ⟨le_refl _, by omega, by rw [hfs, hb], fun j h1 h2 => absurd h1 (by omega)⟩
    | none =>
      rw [hfs] at h
      obtain ⟨h1, h2, h3, h4⟩ := ih h
      refine ⟨by omega, by omega, h3, fun j hj1 hj2 => ?_⟩
      rcases Nat.eq_or_lt_of_le hj1 with rfl | hj
      · exact hfs
      · exact h4 j (by omega) hj2

theorem findFromGo_none {f : Nat → Option α} :
    ∀ {fuel start : Nat}, findFromGo f start fuel = none →
      ∀ j, start ≤ j → j < start + fuel → f j = none := by
  intro fuel
  induction fuel with
  | zero => intro start h j hj1 hj2; omega
  | succ n ih =>
    intro start h j hj1 hj2
    rw [findFromGo] at h
    cases hfs : f start with
    | some b => rw [hfs] at h; simp at h
    | none =>
      rw [hfs] at h
      rcases Nat.eq_or_lt_of_le hj1 with rfl | hj
      · exact hfs
      · exact ih h j (by omega) (by omega)

theorem findFromGo_of_least {f : Nat → Option α} :
    ∀ {fuel start p : Nat} {a : α},
      start ≤ p → p < start + fuel → f p = some a →
      (∀ j, start ≤ j → j < p → f j = none) →
      findFromGo f start fuel = some (p, a) := by
  intro fuel
  induction fuel with
  | zero => intro start p a h1 h2; omega
  | succ n ih =>
    intro start p a h1 h2 h3 h4
    rw [findFromGo]
    rcases Nat.eq_or_lt_of_le h1 with rfl | hlt
    · rw [h3]
    · rw [h4 start (le_refl _) hlt]
      exact ih (by omega) (by omega) h3 (fun j hj1 hj2 => h4 j (by omega) hj2)

theorem findFrom_eq_some {f : Nat → Option α} {start stop p : Nat} {a : α}
    (h : findFrom f start stop = some (p, a)) :
    start ≤ p ∧ p < stop ∧ f p = some a ∧ ∀ j, start ≤ j → j < p → f j = none := by
  obtain ⟨h1, h2, h3, h4⟩ := findFromGo_some (f := f) h
  exact ⟨h1, by omega, h3, h4⟩

theorem findFrom_eq_none {f : Nat → Option α} {start stop : Nat}
    (h : findFrom f start stop = none) :
    ∀ j, start ≤ j → j < stop → f j = none := by
  intro j hj1 hj2
  exact findFromGo_none (f := f) h j hj1 (by omega)

theorem findFrom_of_least {f : Nat → Option α} {start stop p : Nat} {a : α}
    (h1 : start ≤ p) (h2 : p < stop) (h3 : f p = some a)
    (h4 : ∀ j, start ≤ j → j < p → f j = none) :
    findFrom f start stop = some (p, a) :=
  findFromGo_of_least h1 (by omega) h3 h4

theorem findFrom_of_none {f : Nat → Option α} {start stop : Nat}
    (h : ∀ j, start ≤ j → j < stop → f j = none) :
    findFrom f start stop = none := by
  cases hres : findFrom f start stop with
  | none => rfl
  | some pa =>
    obtain ⟨h1, h2, h3, _⟩ := findFrom_eq_some (p := pa.1) (a := pa.2) (by rw [hres])
    rw [h pa.1 h1 h2] at h3
    exact absurd h3 (by simp)

theorem dedupGo_spec [DecidableEq α] :
    ∀ (l seen : List α), (dedupGo seen l).Nodup ∧ ∀ x ∈ dedupGo seen l, x ∉ seen := by
  intro l
  induction l with
  | nil => intro seen; exact ⟨List.nodup_nil, by simp [dedupGo]⟩
  | cons x rest ih =>
    intro seen
    by_cases hx : x ∈ seen
    · simpa [dedupGo, hx] using ih seen
    · have hrec := ih (x :: seen)
      refine ⟨?_, ?_⟩
      · simp only [dedupGo, if_neg hx]
        refine List.nodup_cons.mpr ⟨?_, hrec.1⟩
        intro hmem
        exact hrec.2 x hmem (by simp)
      · intro y hy
        simp only [dedupGo, if_neg hx] at hy
        rcases List.mem_cons.mp hy with rfl | hy
        · exact hx
        · intro hseen
          exact hrec.2 y hy (by simp [hseen])

theorem find?_spec {p : α → Bool} :
    ∀ {l : List α} {a : α}, l.find? p = some a →
      ∃ k, l.get? k = some a ∧ p a = true ∧
        ∀ j b, j < k → l.get? j = some b → p b = false := by
  intro l
  induction l with
  | nil => intro a h; simp [List.find?] at h
  | cons x rest ih =>
    intro a h
    rw [List.find?] at h
    cases hx : p x with
    | true =>
      rw [hx] at h
      simp at h
      subst h
      exact ⟨0, rfl, hx, fun j b hj => by omega⟩
    | false =>
      rw [hx] at h
      obtain ⟨k, h1, h2, h3⟩ := ih h
      refine ⟨k + 1, by rw [List.get?_cons_succ]; exact h1, h2, fun j b hj hget => ?_⟩
      cases j with
      | zero =>
        rw [List.get?_cons_zero] at hget
        cases hget
        exact hx
      | succ j' =>
        rw [List.get?_cons_succ] at hget
        exact h3 j' b (by omega) hget

theorem get?_some_of_lt {l : List α} {n : Nat} (h : n < l.length) :
    l.get? n = some (l.get ⟨n, h⟩) := List.get?_eq_get h

theorem lt_of_get?_some {l : List α} {n : Nat} {a : α} (h : l.get? n = some a) :
    n < l.length := by
  by_contra hc
  rw [List.get?_eq_none.mpr (by omega)] at h
  simp at h

theorem stripFlags_length : ∀ (m : JMode) (l : Str), (stripFlags m l).length = l.length := by
  intro m l
  induction m, l using stripFlags.induct <;> simp_all [stripFlags]

theorem stripGo_eq_zipWith : ∀ (m : JMode) (l : Str),
    stripGo m l = List.zipWith (fun c b => if b then maskChar c else c) l (stripFlags m l) := by
  intro m l
  induction m, l using stripGo.induct <;>
    simp_all [stripGo, stripFlags, maskChar]

/-- C8: the Java masking scanner preserves length and newline positions, every
change it makes replaces a character by a space, and every character it
consumed in a masked region (comment bodies and delimiters, string/char
literal bodies, text-block bodies — the positions `stripFlags` marks) comes
out as `mask_char` of the original (space, or newline for a newline). -/
theorem maskChar_eq_nl (c : Char) : maskChar c = '\n' ↔ c = '\n' := by
  unfold maskChar
  by_cases hc : c = '\n'
  · simp [hc]
  · rw [if_neg hc]
    constructor
    · intro h
      exact absurd h (by decide)
    · intro h
      exact absurd h hc

/-- C8: the Java masking scanner preserves length and newline positions, every
change it makes replaces a character by a space, and every character it
consumed in a masked region (comment bodies and delimiters, string/char
literal bodies, text-block bodies — the positions `stripFlags` marks) comes
out as `mask_char` of the original (space, or newline for a newline). -/
theorem c8_masking_contract :
    ∀ t : Str,
      (javaStripComments t).length = t.length ∧
      (∀ i, (javaStripComments t).get? i = some '\n' ↔ t.get? i = some '\n') ∧
      (∀ i c c', t.get? i = some c → (javaStripComments t).get? i = some c' →
        c' = c ∨ c' = ' ') ∧
      (∀ i c, (stripFlags JMode.normal t).get? i = some true → t.get? i = some c →
        (javaStripComments t).get? i = some (maskChar c)) := by
  intro t
  have hlen : (stripFlags JMode.normal t).length = t.length := stripFlags_length _ _
  have hz : javaStripComments t =
      List.zipWith (fun c b => if b then maskChar c else c) t (stripFlags JMode.normal t) :=
    stripGo_eq_zipWith _ _
  refine ⟨?_, ?_, ?_, ?_⟩
  · rw [hz, List.length_zipWith, hlen, Nat.min_self]
  · intro i
    rw [hz, List.get?_zipWith']
    cases hti : t.get? i with
    | none =>
      have hfi : (stripFlags JMode.normal t).get? i = none := by
        rw [List.get?_eq_none] at hti ⊢
        omega
      simp [hfi]
    | some c =>
      have hi : i < t.length := lt_of_get?_some hti
      obtain ⟨b, hfi⟩ : ∃ b, (stripFlags JMode.normal t).get? i = some b :=
        ⟨_, List.get?_eq_get (by omega)⟩
      rw [hfi]
      dsimp only [Option.map, Option.bind]
      cases b
      · simp
      · simp [maskChar_eq_nl]
  · intro i c c' hti hout
    rw [hz, List.get?_zipWith'] at hout
    have hi : i < t.length := lt_of_get?_some hti
    obtain ⟨b, hfi⟩ : ∃ b, (stripFlags JMode.normal t).get? i = some b :=
      ⟨_, List.get?_eq_get (by omega)⟩
    rw [hti, hfi] at hout
    dsimp only [Option.map, Option.bind] at hout
    cases b
    · simp at hout
      left
      exact hout.symm
    · have hout' : maskChar c = c' := by simpa using hout
      unfold maskChar at hout'
      by_cases hc : c = '\n'
      · left
        rw [← hout', if_pos hc, hc]
      · right
        rw [← hout', if_neg hc]
  · intro i c hflag hti
    rw [hz, List.get?_zipWith']
    rw [hti, hflag]
    dsimp only [Option.map, Option.bind]
    simp

/-- C8 witness: on `a//b\nStatement s;` the masked text keeps the length,
keeps the newline at position 4, masks the comment body and leaves the code. -/
theorem c8_masking_contract_witness :
    (javaStripComments c8JavaText).length = c8JavaText.length ∧
    ((javaStripComments c8JavaText).get? 4 = some '\n' ↔ c8JavaText.get? 4 = some '\n') ∧
    (' ' = 'b' ∨ ' ' = ' ') ∧
    (javaStripComments c8JavaText).get? 3 = some (maskChar 'b') := by
  obtain ⟨h1, h2, h3, h4⟩ := c8_masking_contract c8JavaText
  exact ⟨h1, h2 4, h3 3 'b' ' ' (by decide) (by decide), h4 3 'b' (by decide) (by decide)⟩

/-- C7 counterexample: the Swift detector has no de-duplication pass; two
`?.` guards on the same name that share one later forced access emit two
findings with identical (line, column, message) for one file, refuting the
claim that no detector ever emits such duplicates. -/
theorem c7_counterexample :
    swiftAnalyzeText c7SwiftText =
      [(3, 1, "x! forced after ?. guard without exit"),
       (3, 1, "x! forced after ?. guard without exit")] ∧
    ¬ (swiftAnalyzeText c7SwiftText).Nodup := by
  refine ⟨by decide, by decide⟩

/-- C7 amended: only the Kotlin detector de-duplicates; its per-file output
never contains two identical (line, column, message) findings. -/
theorem c7_amended : ∀ t : Str, (kotlinAnalyzeText t).Nodup := by
  intro t
  unfold kotlinAnalyzeText
  exact (dedupGo_spec _ _).1

/-- C9 counterexample: with two still-open records for `x` in one scope
(socket reassigned to a task), the kind-filtered release event of `await x`
marks the LATER task record and leaves the EARLIEST still-open record
(the socket) open, refuting the claim that a release event always clears
the earliest still-open record of the name. -/
theorem c9_counterexample :
    (addRecord (some "x") "asyncio_task" 2
        (addRecord (some "x") "socket_handle" 1 [emptyScope] []).1
        (addRecord (some "x") "socket_handle" 1 [emptyScope] []).2) =
      (exC9Stack, exC9Records) ∧
    isOpenRec exC9Records 0 = true ∧
    isOpenRec exC9Records 1 = true ∧
    markReleased (some "x") (some "asyncio_task") false exC9Stack exC9Records =
      [⟨some "x", "socket_handle", 1, false⟩, ⟨some "x", "asyncio_task", 2, true⟩] ∧
    ¬ (markReleased (some "x") (some "asyncio_task") false exC9Stack exC9Records).get? 0 =
        some ⟨some "x", "socket_handle", 1, true⟩ := by
  refine ⟨by decide, by decide, by decide, by decide, by decide⟩

/-- C9 amended: a single release event marks released exactly the earliest
still-open record of the name whose kind matches the event's filter
(`None` matches any kind); every other record, including earlier still-open
records of a different kind, is unchanged. -/
theorem c9_amended :
    ∀ (records : List PyRecord) (stack : ScopeStack) (n : String) (kind : Option String),
      n ≠ "" →
      (markReleased (some n) kind false stack records =
        match (lookupByName (currentScope stack) n).find? (openMatch records kind) with
        | some id => setReleased records id
        | none => records) ∧
      (∀ id, (lookupByName (currentScope stack) n).find? (openMatch records kind) = some id →
        (∃ k, (lookupByName (currentScope stack) n).get? k = some id ∧
          openMatch records kind id = true ∧
          ∀ j b, j < k → (lookupByName (currentScope stack) n).get? j = some b →
            openMatch records kind b = false) ∧
        ∀ i, i ≠ id → (setReleased records id).get? i = records.get? i) := by
  intro records stack n kind hne
  constructor
  · unfold markReleased
    simp only [if_neg hne]
    cases hfind : (lookupByName (currentScope stack) n).find? (openMatch records kind) with
    | none => simp [findTargetScopes, hfind]
    | some id => simp [findTargetScopes, hfind]
  · intro id hfind
    refine ⟨?_, ?_⟩
    · obtain ⟨k, h1, h2, h3⟩ := find?_spec hfind
      exact ⟨k, h1, h2, fun j b hj hget => h3 j b hj hget⟩
    · intro i hne'
      unfold setReleased
      cases hrec : records.get? id with
      | none => simp only [hrec]
      | some r =>
        simp only [hrec]
        exact List.get?_set_ne _ _ (fun h => hne' h.symm)

/-- Innermost-only search: with `check_all_scopes=False`, `_mark_released`
can only touch records listed under the name in the innermost scope. -/
theorem markReleased_innermost :
    ∀ (n : String) (kind : Option String) (stack : ScopeStack) (records : List PyRecord)
      (i : Nat), i ∉ lookupByName (currentScope stack) n →
      (markReleased (some n) kind false stack records).get? i = records.get? i := by
  intro n kind stack records i hmem
  unfold markReleased
  by_cases hne : n = ""
  · simp [hne]
  · simp only [if_neg hne]
    rw [if_neg (show ¬ (false = true) by decide)]
    cases hfind : findTargetScopes records n kind [currentScope stack] with
    | none => rfl
    | some id =>
      have hid : id ∈ lookupByName (currentScope stack) n := by
        unfold findTargetScopes at hfind
        cases hf : (lookupByName (currentScope stack) n).find? (openMatch records kind) with
        | none => rw [hf] at hfind; simp [findTargetScopes] at hfind
        | some id' =>
          rw [hf] at hfind
          simp at hfind
          subst hfind
          exact List.mem_of_find?_eq_some hf
      have hne2 : id ≠ i := fun h => hmem (h ▸ hid)
      show (setReleased records id).get? i = records.get? i
      unfold setReleased
      cases hrec : records.get? id with
      | none => simp only [hrec]
      | some r =>
        simp only [hrec]
        exact List.get?_set_ne _ _ hne2

/-- The scope loop of `_mark_released` is the first-match search over the
concatenation of the per-scope entry lists, in the order the scopes are
walked. -/
theorem findTargetScopes_join :
    ∀ (scopes : List PyScope) (records : List PyRecord) (n : String) (kind : Option String),
      findTargetScopes records n kind scopes =
        (scopes.map fun s => lookupByName s n).flatten.find? (openMatch records kind) := by
  intro scopes records n kind
  induction scopes with
  | nil => simp [findTargetScopes]
  | cons s rest ih =>
    rw [List.map_cons, List.flatten_cons, List.find?_append]
    unfold findTargetScopes
    cases hf : (lookupByName s n).find? (openMatch records kind) with
    | none => rw [ih]; rfl
    | some id => exact Option.or_some.symm ▸ rfl

/-- `kind=None` ignores the record's kind. -/
theorem openMatch_none (records : List PyRecord) :
    openMatch records none = isOpenRec records := by
  funext id
  unfold openMatch isOpenRec
  cases records.get? id with
  | none => rfl
  | some r => simp

/-- C2: explicit release events (release-method call, bulk release,
awaiting a name) search only the innermost scope's records, while
return/yield ownership transfer searches the whole scope stack innermost
first and releases the first still-open record with the name, ignoring
its kind. -/
theorem c2_scope_search :
    (∀ (n method : String) (stack : ScopeStack) (records : List PyRecord) (i : Nat),
       i ∉ lookupByName (currentScope stack) n →
       (releaseMethodEvent (some n) method stack records).get? i = records.get? i) ∧
    (∀ (n : String) (stack : ScopeStack) (records : List PyRecord) (i : Nat),
       i ∉ lookupByName (currentScope stack) n →
       (awaitEvent n stack records).get? i = records.get? i) ∧
    (∀ (n : String) (stack : ScopeStack) (records : List PyRecord) (i : Nat),
       i ∉ lookupByName (currentScope stack) n →
       (bulkReleaseEvent n stack records).get? i = records.get? i) ∧
    (∀ (n : String) (stack : ScopeStack) (records : List PyRecord),
       n ≠ "" →
       returnYieldEvent n stack records =
         match (stack.reverse.map fun s => lookupByName s n).flatten.find? (isOpenRec records) with
         | some id => setReleased records id
         | none => records) := by
  refine ⟨?_, ?_, ?_, ?_⟩
  · intro n method stack records i hmem
    unfold releaseMethodEvent
    cases releaseKindForMethod method with
    | none => rfl
    | some kind => exact markReleased_innermost n (some kind) stack records i hmem
  · intro n stack records i hmem
    exact markReleased_innermost n (some "asyncio_task") stack records i hmem
  · intro n stack records i hmem
    exact markReleased_innermost n (some "asyncio_task") stack records i hmem
  · intro n stack records hne
    unfold returnYieldEvent markReleased
    simp only [if_neg hne]
    rw [if_pos trivial]
    rw [findTargetScopes_join, openMatch_none]

/-- C2 witness: a closure scope above a module scope holding record 0 under
`g`; the await (explicit) event cannot reach it, return/yield does. -/
theorem c2_scope_search_witness :
    ((0 : Nat) ∉ lookupByName (currentScope [⟨[("g", [0])]⟩, ⟨[]⟩]) "g" ∧
      (awaitEvent "g" [⟨[("g", [0])]⟩, ⟨[]⟩] [⟨some "g", "file_handle", 1, false⟩]).get? 0 =
        ([⟨some "g", "file_handle", 1, false⟩] : List PyRecord).get? 0) ∧
    ("g" ≠ "" ∧
      returnYieldEvent "g" [⟨[("g", [0])]⟩, ⟨[]⟩] [⟨some "g", "file_handle", 1, false⟩] =
        match (([⟨[("g", [0])]⟩, ⟨[]⟩] : ScopeStack).reverse.map fun s => lookupByName s "g").flatten.find?
            (isOpenRec [⟨some "g", "file_handle", 1, false⟩]) with
        | some id => setReleased [⟨some "g", "file_handle", 1, false⟩] id
        | none => [⟨some "g", "file_handle", 1, false⟩]) := by
  constructor
  · exact ⟨by decide, c2_scope_search.2.1 "g" _ _ 0 (by decide)⟩
  · exact ⟨by decide, c2_scope_search.2.2.2 "g" _ _ (by decide)⟩

/-- C9 amended witness: one scope, two open records of different kinds under
`x`; the task-kind event marks record 1, and record 0 is untouched. -/
theorem c9_amended_witness :
    ("x" ≠ "" ∧
      markReleased (some "x") (some "asyncio_task") false exC9Stack exC9Records =
        match (lookupByName (currentScope exC9Stack) "x").find?
            (openMatch exC9Records (some "asyncio_task")) with
        | some id => setReleased exC9Records id
        | none => exC9Records) ∧
    (setReleased exC9Records 1).get? 0 = exC9Records.get? 0 := by
  have h := c9_amended exC9Records exC9Stack "x" (some "asyncio_task") (by decide)
  refine ⟨⟨by decide, h.1⟩, ?_⟩
  exact (h.2 1 (by decide)).2 0 (by decide)

/-- C3 counterexample: invoked with no project argument, the Kotlin, Swift
and Rust detectors exit with code 1 (not 2). -/
theorem c3_counterexample :
    kotlinMainModel ["type_narrowing_kotlin.py"] (⟨0, [7]⟩ : RunOutcome Nat) = ⟨1, []⟩ ∧
    swiftMainModel ["type_narrowing_swift.py"] (⟨0, [7]⟩ : RunOutcome Nat) = ⟨1, []⟩ ∧
    rustMainModel ["type_narrowing_rust.py"] (⟨0, [7]⟩ : RunOutcome Nat) = ⟨1, []⟩ ∧
    (1 : Nat) ≠ 2 := by
  refine ⟨by decide, by decide, by decide, by decide⟩

/-- C3 amended: on a missing argument the Kotlin, Swift and Rust detectors
exit 1; on a wrong argument count the Java and Python detectors exit 2; in
every such case no files are processed. -/
theorem c3_amended {α : Type} :
    ∀ (argv : List String) (run : RunOutcome α),
      (argv.length < 2 →
        kotlinMainModel argv run = ⟨1, []⟩ ∧ swiftMainModel argv run = ⟨1, []⟩ ∧
        rustMainModel argv run = ⟨1, []⟩) ∧
      (argv.length ≠ 2 →
        javaMainModel argv run = ⟨2, []⟩ ∧ pythonMainModel argv run = ⟨2, []⟩) := by
  intro argv run
  constructor
  · intro h
    exact ⟨by simp [kotlinMainModel, h], by simp [swiftMainModel, h],
      by simp [rustMainModel, h]⟩
  · intro h
    exact ⟨by simp [javaMainModel, h], by simp [pythonMainModel, h]⟩

/-- C3 amended witness at a one-element and a three-element argument vector. -/
theorem c3_amended_witness :
    (kotlinMainModel ["p"] (⟨0, [7]⟩ : RunOutcome Nat) = ⟨1, []⟩ ∧
      swiftMainModel ["p"] (⟨0, [7]⟩ : RunOutcome Nat) = ⟨1, []⟩ ∧
      rustMainModel ["p"] (⟨0, [7]⟩ : RunOutcome Nat) = ⟨1, []⟩) ∧
    (javaMainModel ["p", "a", "b"] (⟨0, [7]⟩ : RunOutcome Nat) = ⟨2, []⟩ ∧
      pythonMainModel ["p", "a", "b"] (⟨0, [7]⟩ : RunOutcome Nat) = ⟨2, []⟩) := by
  exact ⟨(c3_amended ["p"] ⟨0, [7]⟩).1 (by decide),
    (c3_amended ["p", "a", "b"] ⟨0, [7]⟩).2 (by decide)⟩

/-- C1 counterexample: in the Kotlin detector the claim fails. On
`if (x != null) { return }\nx!!` the polarity-inverted `!= null` guard
matches, its extracted body contains an exit keyword, the forced access
`x!!` follows with no intervening reassignment — yet the detector emits
no finding, because Kotlin's `collect_guard_issues` applies exit-skipping
to every guard shape, with no per-pattern tag. -/
theorem c1_counterexample :
    finditer (kotlinPosGuardAt c1KotlinText) c1KotlinText.length = [(0, "x".data, 14)] ∧
    (extractGuardRegion c1KotlinText 14).2 = 25 ∧
    containsExit (extractGuardRegion c1KotlinText 14).1 = true ∧
    doubleBangAt ("x".data) c1KotlinText 26 = some 29 ∧
    (∀ q, q < 26 → 25 ≤ q → doubleBangAt ("x".data) c1KotlinText q = none) ∧
    (∀ q, q < 26 → 25 ≤ q → assignAt ("x".data) c1KotlinText q = none) ∧
    kotlinAnalyzeText c1KotlinText = [] := by
  refine ⟨by decide, by decide, by decide, by decide, by decide, by decide, by decide⟩

/-- C1 amended: the asymmetry exists only in the Swift detector, whose
patterns carry a per-pattern `skip_on_exit` tag — a polarity-inverted Swift
guard (`!= nil`, `?.`) whose body exits still yields a finding at the
nearest forced access without intervening reassignment, and such findings
reach the detector output. In the Kotlin detector exit-skipping applies to
all three guard shapes, so an exiting body always suppresses the match. -/
theorem c1_amended :
    (∀ (t name : Str) (mEnd : Nat) (msg : Str → String) (p e : Nat),
      (extractGuardRegion t mEnd).2 ≤ p → p < t.length →
      swiftForceAt name t p = some e →
      (∀ q, q < p → (extractGuardRegion t mEnd).2 ≤ q → swiftForceAt name t q = none) →
      (∀ q e', q < p → (extractGuardRegion t mEnd).2 ≤ q →
        assignAt name t q = some e' → ¬ e' ≤ p) →
      swiftProcessMatch t name mEnd msg false =
        some ((lineCol t p).1, (lineCol t p).2, msg name)) ∧
    (∀ (t : Str) (m : Nat × Str × Nat) (iss : KIssue),
      m ∈ finditer (swiftPosNilGuardAt t) t.length →
      swiftProcessMatch t m.2.1 m.2.2 msgSwiftPos false = some iss →
      iss ∈ swiftAnalyzeText t) ∧
    (∀ (t : Str) (m : Nat × Str × Nat) (iss : KIssue),
      m ∈ finditer (swiftOptChainGuardAt t) t.length →
      swiftProcessMatch t m.2.1 m.2.2 msgSwiftChain false = some iss →
      iss ∈ swiftAnalyzeText t) ∧
    (∀ (t name : Str) (mEnd : Nat) (msg : Str → String),
      containsExit (extractGuardRegion t mEnd).1 = true →
      kotlinProcessMatch t name mEnd msg = none) := by
  refine ⟨?_, ?_, ?_, ?_⟩
  · intro t name mEnd msg p e hge hlt hforce hleast hassign
    have h1 : findFrom (fun j => swiftForceAt name t j) (extractGuardRegion t mEnd).2
        t.length = some (p, e) :=
      findFrom_of_least hge hlt hforce (fun j hj1 hj2 => hleast j hj2 hj1)
    have h2 : findFrom (fun j =>
        match assignAt name t j with
        | some e' => if e' ≤ p then some e' else none
        | none => none) (extractGuardRegion t mEnd).2 p = none := by
      apply findFrom_of_none
      intro j hj1 hj2
      cases ha : assignAt name t j with
      | none => rfl
      | some e' =>
        simp only []
        rw [if_neg (hassign j e' hj2 hj1 ha)]
    unfold swiftProcessMatch
    simp only [h1, h2, Bool.false_and, Bool.false_eq_true, if_false]
  · intro t m iss hm hproc
    unfold swiftAnalyzeText
    apply List.mem_append_left
    apply List.mem_append_left
    apply List.mem_append_right
    unfold swiftCollectGuardIssues
    exact List.mem_filterMap.mpr ⟨m, hm, hproc⟩
  · intro t m iss hm hproc
    unfold swiftAnalyzeText
    apply List.mem_append_left
    apply List.mem_append_right
    unfold swiftCollectGuardIssues
    exact List.mem_filterMap.mpr ⟨m, hm, hproc⟩
  · intro t name mEnd msg hexit
    simp [kotlinProcessMatch, hexit]

/-- C1 amended witness: the Swift text `if (x != nil) { return }\nx!` — the
body exits, yet the inverted guard still produces its finding at the `x!`
site, and the Kotlin counterpart suppresses its match. -/
theorem c1_amended_witness :
    swiftProcessMatch c1SwiftText ("x".data) 13 msgSwiftPos false =
      some ((lineCol c1SwiftText 25).1, (lineCol c1SwiftText 25).2,
        msgSwiftPos ("x".data)) ∧
    ((2 : Nat), (1 : Nat), msgSwiftPos ("x".data)) ∈ swiftAnalyzeText c1SwiftText ∧
    kotlinProcessMatch c1KotlinText ("x".data) 14 msgKotlinPos = none := by
  refine ⟨?_, ?_, ?_⟩
  · exact c1_amended.1 c1SwiftText ("x".data) 13 msgSwiftPos 25 27 (by decide) (by decide)
      (by decide) (by decide) (by
        intro q e' hq hge ha
        have h24 : (extractGuardRegion c1SwiftText 13).2 = 24 := by decide
        rw [h24] at hge
        have hq24 : q = 24 := by omega
        subst hq24
        rw [show assignAt ("x".data) c1SwiftText 24 = none from by decide] at ha
        simp at ha)
  · refine c1_amended.2.1 c1SwiftText (0, "x".data, 13) _ (by decide) ?_
    have h := c1_amended.1 c1SwiftText ("x".data) 13 msgSwiftPos 25 27 (by decide) (by decide)
      (by decide) (by decide) (by
        intro q e' hq hge ha
        have h24 : (extractGuardRegion c1SwiftText 13).2 = 24 := by decide
        rw [h24] at hge
        have hq24 : q = 24 := by omega
        subst hq24
        rw [show assignAt ("x".data) c1SwiftText 24 = none from by decide] at ha
        simp at ha)
    rw [h]
    decide
  · exact c1_amended.2.2.2 c1KotlinText ("x".data) 14 msgKotlinPos (by decide)

/-- C6: per-guard-match behaviour of the three pattern detectors. Kotlin and
Swift emit at most one finding per guard match (their collectors contribute
at most one issue per `finditer` match), located at the least forced-access
position after the guard; a reassignment match contained strictly before
that position suppresses the finding. Rust's `analyze_guard` truncates the
post-guard remainder at the first reassignment and reports the least
unwrap/expect position inside what is left, so a reassignment before the
nearest unwrap suppresses the finding there as well. -/
theorem c6_per_match_behavior :
    (∀ (t name : Str) (mEnd : Nat) (msg : Str → String) (p e : Nat),
      containsExit (extractGuardRegion t mEnd).1 = false →
      (extractGuardRegion t mEnd).2 ≤ p → p < t.length →
      doubleBangAt name t p = some e →
      (∀ q, q < p → (extractGuardRegion t mEnd).2 ≤ q → doubleBangAt name t q = none) →
      ((∀ q e', q < p → (extractGuardRegion t mEnd).2 ≤ q →
          assignAt name t q = some e' → ¬ e' ≤ p) →
        kotlinProcessMatch t name mEnd msg =
          some ((lineCol t p).1, (lineCol t p).2, msg name)) ∧
      (∀ q e', q < p → (extractGuardRegion t mEnd).2 ≤ q →
          assignAt name t q = some e' → e' ≤ p →
        kotlinProcessMatch t name mEnd msg = none)) ∧
    (∀ (t name : Str) (mEnd : Nat) (msg : Str → String),
      (∀ q, q < t.length → (extractGuardRegion t mEnd).2 ≤ q →
        doubleBangAt name t q = none) →
      kotlinProcessMatch t name mEnd msg = none) ∧
    (∀ (t : Str) (pat : Str → Nat → Option (Str × Nat)) (msg : Str → String),
      (kotlinCollectGuardIssues t pat msg).length ≤ (finditer (pat t) t.length).length) ∧
    (∀ (t name : Str) (mEnd : Nat) (msg : Str → String) (skip : Bool) (p e : Nat),
      (skip && swiftBlockHasExit (extractGuardRegion t mEnd).1) = false →
      (extractGuardRegion t mEnd).2 ≤ p → p < t.length →
      swiftForceAt name t p = some e →
      (∀ q, q < p → (extractGuardRegion t mEnd).2 ≤ q → swiftForceAt name t q = none) →
      ((∀ q e', q < p → (extractGuardRegion t mEnd).2 ≤ q →
          assignAt name t q = some e' → ¬ e' ≤ p) →
        swiftProcessMatch t name mEnd msg skip =
          some ((lineCol t p).1, (lineCol t p).2, msg name)) ∧
      (∀ q e', q < p → (extractGuardRegion t mEnd).2 ≤ q →
          assignAt name t q = some e' → e' ≤ p →
        swiftProcessMatch t name mEnd msg skip = none)) ∧
    (∀ (t : Str) (pat : Str → Nat → Option (Str × Nat)) (msg : Str → String) (skip : Bool),
      (swiftCollectGuardIssues t pat msg skip).length ≤ (finditer (pat t) t.length).length) ∧
    (∀ (t expr : Str) (gs ge : Nat),
      rustContainsExit (slice t gs ge) = false →
      ((∀ j, j < (t.drop ge).length → assignAt expr (t.drop ge) j = none) →
        (∀ (u eu : Nat), u < (t.drop ge).length → unwrapAt expr (t.drop ge) u = some eu →
          (∀ j, j < u → unwrapAt expr (t.drop ge) j = none) →
          rustAnalyzeGuard t expr gs ge = some (lineCol t (ge + u))) ∧
        ((∀ j, j < (t.drop ge).length → unwrapAt expr (t.drop ge) j = none) →
          rustAnalyzeGuard t expr gs ge = none)) ∧
      (∀ (q ea : Nat), q < (t.drop ge).length → assignAt expr (t.drop ge) q = some ea →
        (∀ j, j < q → assignAt expr (t.drop ge) j = none) →
        (∀ (u eu : Nat), u < ((t.drop ge).take q).length →
          unwrapAt expr ((t.drop ge).take q) u = some eu →
          (∀ j, j < u → unwrapAt expr ((t.drop ge).take q) j = none) →
          rustAnalyzeGuard t expr gs ge = some (lineCol t (ge + u))) ∧
        ((∀ j, j < ((t.drop ge).take q).length →
            unwrapAt expr ((t.drop ge).take q) j = none) →
          rustAnalyzeGuard t expr gs ge = none))) := by
  refine ⟨?_, ?_, ?_, ?_, ?_, ?_⟩
  · intro t name mEnd msg p e hexit hge hlt hforce hleast
    have h1 : findFrom (fun j => doubleBangAt name t j) (extractGuardRegion t mEnd).2
        t.length = some (p, e) :=
      findFrom_of_least hge hlt hforce (fun j hj1 hj2 => hleast j hj2 hj1)
    constructor
    · intro hnoassign
      have h2 : findFrom (fun j =>
          match assignAt name t j with
          | some e' => if e' ≤ p then some e' else none
          | none => none) (extractGuardRegion t mEnd).2 p = none := by
        apply findFrom_of_none
        intro j hj1 hj2
        cases ha : assignAt name t j with
        | none => rfl
        | some e' =>
          simp only []
          rw [if_neg (hnoassign j e' hj2 hj1 ha)]
      unfold kotlinProcessMatch
      simp only [hexit, Bool.false_eq_true, if_false, h1, h2]
    · intro q e' hq hgeq ha hle
      have h2 : findFrom (fun j =>
          match assignAt name t j with
          | some e'' => if e'' ≤ p then some e'' else none
          | none => none) (extractGuardRegion t mEnd).2 q.succ ≠ none := by
        intro hnone
        have := findFrom_eq_none hnone q hgeq (by omega)
        rw [ha] at this
        simp only [if_pos hle] at this
        exact Option.noConfusion this
      have h2' : ∃ r, findFrom (fun j =>
          match assignAt name t j with
          | some e'' => if e'' ≤ p then some e'' else none
          | none => none) (extractGuardRegion t mEnd).2 p = some r := by
        cases hres : findFrom (fun j =>
            match assignAt name t j with
            | some e'' => if e'' ≤ p then some e'' else none
            | none => none) (extractGuardRegion t mEnd).2 p with
        | some r => exact ⟨r, rfl⟩
        | none =>
          exfalso
          apply h2
          apply findFrom_of_none
          intro j hj1 hj2
          exact findFrom_eq_none hres j hj1 (by omega)
      obtain ⟨r, hr⟩ := h2'
      unfold kotlinProcessMatch
      simp only [hexit, Bool.false_eq_true, if_false, h1, hr]
  · intro t name mEnd msg hnone
    have h1 : findFrom (fun j => doubleBangAt name t j) (extractGuardRegion t mEnd).2
        t.length = none :=
      findFrom_of_none (fun j hj1 hj2 => hnone j hj2 hj1)
    unfold kotlinProcessMatch
    cases hexit : containsExit (extractGuardRegion t mEnd).1 with
    | true => simp only [hexit, if_true]
    | false => simp only [hexit, Bool.false_eq_true, if_false, h1]
  · intro t pat msg
    unfold kotlinCollectGuardIssues
    exact List.length_filterMap_le _ _
  · intro t name mEnd msg skip p e hskip hge hlt hforce hleast
    have h1 : findFrom (fun j => swiftForceAt name t j) (extractGuardRegion t mEnd).2
        t.length = some (p, e) :=
      findFrom_of_least hge hlt hforce (fun j hj1 hj2 => hleast j hj2 hj1)
    constructor
    · intro hnoassign
      have h2 : findFrom (fun j =>
          match assignAt name t j with
          | some e' => if e' ≤ p then some e' else none
          | none => none) (extractGuardRegion t mEnd).2 p = none := by
        apply findFrom_of_none
        intro j hj1 hj2
        cases ha : assignAt name t j with
        | none => rfl
        | some e' =>
          simp only []
          rw [if_neg (hnoassign j e' hj2 hj1 ha)]
      unfold swiftProcessMatch
      simp only [hskip, Bool.false_eq_true, if_false, h1, h2]
    · intro q e' hq hgeq ha hle
      have h2' : ∃ r, findFrom (fun j =>
          match assignAt name t j with
          | some e'' => if e'' ≤ p then some e'' else none
          | none => none) (extractGuardRegion t mEnd).2 p = some r := by
        cases hres : findFrom (fun j =>
            match assignAt name t j with
            | some e'' => if e'' ≤ p then some e'' else none
            | none => none) (extractGuardRegion t mEnd).2 p with
        | some r => exact ⟨r, rfl⟩
        | none =>
          exfalso
          have := findFrom_eq_none hres q hgeq hq
          rw [ha] at this
          simp only [if_pos hle] at this
          exact Option.noConfusion this
      obtain ⟨r, hr⟩ := h2'
      unfold swiftProcessMatch
      simp only [hskip, Bool.false_eq_true, if_false, h1, hr]
  · intro t pat msg skip
    unfold swiftCollectGuardIssues
    exact List.length_filterMap_le _ _
  · intro t expr gs ge hexit
    constructor
    · intro hnoassign
      have ha : findFrom (fun j => assignAt expr (t.drop ge) j) 0 (t.drop ge).length = none :=
        findFrom_of_none (fun j _ hj2 => hnoassign j hj2)
      constructor
      · intro u eu hu hunwrap huleast
        have hu1 : findFrom (fun j => unwrapAt expr (t.drop ge) j) 0 (t.drop ge).length =
            some (u, eu) :=
          findFrom_of_least (Nat.zero_le _) hu hunwrap (fun j _ hj2 => huleast j hj2)
        unfold rustAnalyzeGuard
        simp only [hexit, Bool.false_eq_true, if_false, ha, hu1]
      · intro hnounwrap
        have hu1 : findFrom (fun j => unwrapAt expr (t.drop ge) j) 0 (t.drop ge).length =
            none :=
          findFrom_of_none (fun j _ hj2 => hnounwrap j hj2)
        unfold rustAnalyzeGuard
        simp only [hexit, Bool.false_eq_true, if_false, ha, hu1]
    · intro q ea hq haq haleast
      have ha : findFrom (fun j => assignAt expr (t.drop ge) j) 0 (t.drop ge).length =
          some (q, ea) :=
        findFrom_of_least (Nat.zero_le _) hq haq (fun j _ hj2 => haleast j hj2)
      constructor
      · intro u eu hu hunwrap huleast
        have hu1 : findFrom (fun j => unwrapAt expr ((t.drop ge).take q) j) 0
            ((t.drop ge).take q).length = some (u, eu) :=
          findFrom_of_least (Nat.zero_le _) hu hunwrap (fun j _ hj2 => huleast j hj2)
        unfold rustAnalyzeGuard
        simp only [hexit, Bool.false_eq_true, if_false, ha, hu1]
      · intro hnounwrap
        have hu1 : findFrom (fun j => unwrapAt expr ((t.drop ge).take q) j) 0
            ((t.drop ge).take q).length = none :=
          findFrom_of_none (fun j _ hj2 => hnounwrap j hj2)
        unfold rustAnalyzeGuard
        simp only [hexit, Bool.false_eq_true, if_false, ha, hu1]

/-- C6 witness: a Kotlin guard reported at the nearest `!!`, a Kotlin guard
suppressed by an intervening reassignment, a Swift guard reported at the
nearest `!`, and a Rust structural guard reported at the nearest unwrap. -/
theorem c6_per_match_behavior_witness :
    kotlinProcessMatch c6KotlinText ("x".data) 14 msgKotlinNeg =
      some ((lineCol c6KotlinText 23).1, (lineCol c6KotlinText 23).2,
        msgKotlinNeg ("x".data)) ∧
    kotlinProcessMatch c6KotlinText2 ("z".data) 14 msgKotlinNeg = none ∧
    swiftProcessMatch c6SwiftText ("y".data) 13 msgSwiftNeg true =
      some ((lineCol c6SwiftText 22).1, (lineCol c6SwiftText 22).2,
        msgSwiftNeg ("y".data)) ∧
    rustAnalyzeGuard c6RustText ("x".data) 0 12 = some (lineCol c6RustText 13) := by
  refine ⟨?_, ?_, ?_, ?_⟩
  · refine (c6_per_match_behavior.1 c6KotlinText ("x".data) 14 msgKotlinNeg 23 26
      (by decide) (by decide) (by decide) (by decide) (by decide)).1 ?_
    intro q e' hq hge ha
    have h22 : (extractGuardRegion c6KotlinText 14).2 = 22 := by decide
    rw [h22] at hge
    have hq22 : q = 22 := by omega
    subst hq22
    rw [show assignAt ("x".data) c6KotlinText 22 = none from by decide] at ha
    simp at ha
  · exact (c6_per_match_behavior.1 c6KotlinText2 ("z".data) 14 msgKotlinNeg 29 32
      (by decide) (by decide) (by decide) (by decide) (by decide)).2
      23 26 (by decide) (by decide) (by decide) (by decide)
  · refine (c6_per_match_behavior.2.2.2.1 c6SwiftText ("y".data) 13 msgSwiftNeg true 22 24
      (by decide) (by decide) (by decide) (by decide) (by decide)).1 ?_
    intro q e' hq hge ha
    have h21 : (extractGuardRegion c6SwiftText 13).2 = 21 := by decide
    rw [h21] at hge
    have hq21 : q = 21 := by omega
    subst hq21
    rw [show assignAt ("y".data) c6SwiftText 21 = none from by decide] at ha
    simp at ha
  · exact ((c6_per_match_behavior.2.2.2.2.2 c6RustText ("x".data) 0 12 (by decide)).1
      (by decide)).1 1 10 (by decide) (by decide) (by decide)

/-- C5 counterexample: `has_close` searches the whole masked text, not only
the part after the declaration. On `s.close(); Statement s = c.q();` the
declaration matches, sits in no try-with-resources, and no `s.close(`
appears later than it — the claim then demands a finding — yet the
detector reports nothing, because the earlier `s.close(` suppresses it. -/
theorem c5_counterexample :
    javaStripComments c5JavaText = c5JavaText ∧
    finditer (javaStatementAt c5JavaText) c5JavaText.length = [(11, "s".data, 31)] ∧
    insideTryWith c5JavaText 11 = false ∧
    findFrom (closeAt ("s".data) c5JavaText) 11 c5JavaText.length = none ∧
    hasClose ("s".data) c5JavaText = true ∧
    javaFileIssues c5JavaText = [] := by
  refine ⟨by decide, by decide, by decide, by decide, by decide, by decide⟩

/-- C5 amended: a matched JDBC declaration (not named `_`) produces a finding
iff it is not inside a still-open `try (` argument list and no
`<name>.close(` call appears anywhere in the masked text — before or after
the declaration; and such findings are exactly what the per-file collector
emits. -/
theorem c5_amended :
    (∀ (text : Str) (kind : String) (m : Nat × Str × Nat),
      m.2.1 ≠ strUnderscore →
      (javaProcessDecl text (javaStripComments text) kind m ≠ none ↔
        insideTryWith (javaStripComments text) m.1 = false ∧
        hasClose m.2.1 (javaStripComments text) = false)) ∧
    (∀ (text : Str) (m : Nat × Str × Nat) (iss : String × Nat),
      (pyStrip text).isEmpty = false →
      m ∈ finditer (javaStatementAt (javaStripComments text)) (javaStripComments text).length →
      javaProcessDecl text (javaStripComments text) strStmtHandle m = some iss →
      iss ∈ javaFileIssues text) ∧
    (∀ (text : Str) (m : Nat × Str × Nat) (iss : String × Nat),
      (pyStrip text).isEmpty = false →
      m ∈ finditer (javaResultSetAt (javaStripComments text)) (javaStripComments text).length →
      javaProcessDecl text (javaStripComments text) strRsHandle m = some iss →
      iss ∈ javaFileIssues text) := by
  refine ⟨?_, ?_, ?_⟩
  · intro text kind m hname
    unfold javaProcessDecl
    rw [if_neg hname]
    cases h1 : insideTryWith (javaStripComments text) m.1 <;>
      cases h2 : hasClose m.2.1 (javaStripComments text) <;>
        simp [h1, h2]
  · intro text m iss hblank hm hproc
    unfold javaFileIssues
    rw [hblank]
    simp only [Bool.false_eq_true, if_false]
    apply List.mem_append_left
    exact List.mem_filterMap.mpr ⟨m, hm, hproc⟩
  · intro text m iss hblank hm hproc
    unfold javaFileIssues
    rw [hblank]
    simp only [Bool.false_eq_true, if_false]
    apply List.mem_append_right
    exact List.mem_filterMap.mpr ⟨m, hm, hproc⟩

/-- C5 amended witness: the Scenario-A style text flags its declaration, and
the close-anywhere rule is exercised on the counterexample text. -/
theorem c5_amended_witness :
    (javaProcessDecl c5JavaText (javaStripComments c5JavaText) strStmtHandle
        (11, "s".data, 31) ≠ none ↔
      insideTryWith (javaStripComments c5JavaText) 11 = false ∧
      hasClose ("s".data) (javaStripComments c5JavaText) = false) ∧
    (strStmtHandle, 1) ∈ javaFileIssues c5JavaText2 := by
  constructor
  · exact c5_amended.1 c5JavaText strStmtHandle (11, "s".data, 31) (by decide)
  · exact c5_amended.2.1 c5JavaText2 (0, "st".data, 21) (strStmtHandle, 1)
      (by decide) (by decide) (by decide)

/-- C4: the structural-feed path yields nothing when the feed is absent,
unreadable or empty; a feed whose entries are all unusable or outside the
working directory yields nothing; and whenever the feed path yields no
findings, the detector output equals the regex-only output on the tree. -/
theorem c4_feed_fallback :
    ∀ (w : RustWorld) (root : RPath) (feed : FeedModel),
      (analyzeWithAstJson w root FeedModel.absent = [] ∧
       analyzeWithAstJson w root FeedModel.unreadable = [] ∧
       analyzeWithAstJson w root (FeedModel.lines []) = []) ∧
      (∀ ls : List FeedLine,
        (∀ e g, FeedLine.entry e ∈ ls → guardFromMatch e = some g →
          isSafePath w g.path = false) →
        analyzeWithAstJson w root (FeedModel.lines ls) = []) ∧
      (analyzeWithAstJson w root feed = [] →
        rustMainIssues w root (some feed) = rustMainIssues w root none) := by
  intro w root feed
  refine ⟨⟨?_, ?_, ?_⟩, ?_, ?_⟩
  · unfold analyzeWithAstJson
    cases isSafePath w root <;> simp
  · unfold analyzeWithAstJson
    cases isSafePath w root <;> simp
  · unfold analyzeWithAstJson
    cases isSafePath w root <;> simp [feedGuards]
  · intro ls hunusable
    have hguards : feedGuards w ls = [] := by
      unfold feedGuards
      rw [List.filterMap_eq_nil]
      intro l hl
      cases l with
      | blank => rfl
      | malformed => rfl
      | entry e =>
        cases hg : guardFromMatch e with
        | none => simp [hg]
        | some g => simp [hg, hunusable e g hl hg]
    unfold analyzeWithAstJson
    cases isSafePath w root <;> simp [hguards]
  · intro hempty
    unfold rustMainIssues
    simp [hempty]

/-- C4 witness: on a concrete world, an absent feed and an all-malformed feed
both fall back to the regex-only output. -/
theorem c4_feed_fallback_witness :
    analyzeWithAstJson exWorld ["ws"] FeedModel.absent = [] ∧
    analyzeWithAstJson exWorld ["ws"] (FeedModel.lines [FeedLine.malformed]) = [] ∧
    rustMainIssues exWorld ["ws"] (some FeedModel.absent) =
      rustMainIssues exWorld ["ws"] none := by
  refine ⟨(c4_feed_fallback exWorld ["ws"] FeedModel.absent).1.1, ?_, ?_⟩
  · exact (c4_feed_fallback exWorld ["ws"] FeedModel.absent).2.1 [FeedLine.malformed]
      (by intro e g h; simp at h)
  · exact (c4_feed_fallback exWorld ["ws"] FeedModel.absent).2.2
      (c4_feed_fallback exWorld ["ws"] FeedModel.absent).1.1

/-- Every path the regex walk yields lies under the working directory. -/
theorem iterRustFiles_safe {w : RustWorld} {root p : RPath}
    (h : p ∈ iterRustFiles w root) : isSafePath w p = true := by
  unfold iterRustFiles at h
  cases hsafe : isSafePath w root with
  | false => rw [hsafe] at h; simp at h
  | true =>
    rw [hsafe] at h
    simp only [Bool.not_true, Bool.false_eq_true, if_false] at h
    by_cases hfile : w.isFile root
    · rw [if_pos hfile] at h
      by_cases hrs : hasRsSuffix root && !anySkipPart root
      · rw [if_pos hrs] at h
        simp at h
        subst h
        exact hsafe
      · rw [if_neg hrs] at h
        simp at h
    · rw [if_neg hfile] at h
      obtain ⟨_, hpred⟩ := List.mem_filter.mp h
      have := (Bool.and_eq_true _ _).mp hpred
      exact this.2

/-- C10: a root outside the working directory makes the walk empty, the
feed filter keeps only safe paths, and every finding the Rust entry point
emits (feed path or regex fallback) names a file under the working
directory. -/
theorem c10_safe_paths :
    ∀ (w : RustWorld) (root : RPath) (feed : Option FeedModel),
      (isSafePath w root = false → iterRustFiles w root = []) ∧
      (∀ (ls : List FeedLine) (g : RGuardMatch), g ∈ feedGuards w ls →
        isSafePath w g.path = true) ∧
      (∀ f ∈ rustMainIssues w root feed, isSafePath w f.1 = true) := by
  intro w root feed
  have hfeed : ∀ (ls : List FeedLine) (g : RGuardMatch), g ∈ feedGuards w ls →
      isSafePath w g.path = true := by
    intro ls g hg
    obtain ⟨l, hl, hfl⟩ := List.mem_filterMap.mp hg
    cases l with
    | blank => simp at hfl
    | malformed => simp at hfl
    | entry e =>
      simp only [] at hfl
      cases hge : guardFromMatch e with
      | none => rw [hge] at hfl; simp at hfl
      | some g' =>
        rw [hge] at hfl
        have hfl' : (if isSafePath w g'.path = true then some g' else none) = some g := hfl
        by_cases hsafe : isSafePath w g'.path = true
        · rw [if_pos hsafe] at hfl'
          cases hfl'
          exact hsafe
        · rw [if_neg hsafe] at hfl'
          simp at hfl'
  have hregex : ∀ f ∈ analyzeWithRegex w root, isSafePath w f.1 = true := by
    intro f hf
    unfold analyzeWithRegex at hf
    obtain ⟨p, hp, hmem⟩ := List.mem_flatMap.mp hf
    have hsafe := iterRustFiles_safe hp
    cases hr : w.readText p with
    | none => rw [hr] at hmem; simp at hmem
    | some text =>
      rw [hr] at hmem
      obtain ⟨iss, _, hiss⟩ := List.mem_map.mp hmem
      rw [← hiss]
      exact hsafe
  have hast : ∀ (fm : FeedModel) (f : RustFinding), f ∈ analyzeWithAstJson w root fm →
      isSafePath w f.1 = true := by
    intro fm f hf
    unfold analyzeWithAstJson at hf
    cases hsr : isSafePath w root with
    | false => rw [hsr] at hf; simp at hf
    | true =>
      rw [hsr] at hf
      simp only [Bool.not_true, Bool.false_eq_true, if_false] at hf
      cases fm with
      | absent => simp at hf
      | unreadable => simp at hf
      | lines ls =>
        simp only [] at hf
        by_cases hempty : (feedGuards w ls).isEmpty
        · rw [if_pos hempty] at hf; simp at hf
        · rw [if_neg hempty] at hf
          obtain ⟨g, hg, hfg⟩ := List.mem_filterMap.mp hf
          have hsafe := hfeed ls g hg
          cases hrt : w.readText g.path with
          | none => rw [hrt] at hfg; simp at hfg
          | some text =>
            rw [hrt] at hfg
            have hfg' : (match rustAnalyzeGuard text g.expr g.gstart g.gstop with
              | none => (none : Option RustFinding)
              | some (line, col) => some (g.path, line, col, rustMsg g.expr)) = some f := hfg
            cases hag : rustAnalyzeGuard text g.expr g.gstart g.gstop with
            | none => rw [hag] at hfg'; simp at hfg'
            | some lc =>
              obtain ⟨line, col⟩ := lc
              rw [hag] at hfg'
              have hff : (some (g.path, line, col, rustMsg g.expr) : Option RustFinding) =
                  some f := hfg'
              cases hff
              exact hsafe
  refine ⟨?_, hfeed, ?_⟩
  · intro hnotsafe
    unfold iterRustFiles
    rw [hnotsafe]
    rfl
  · intro f hf
    unfold rustMainIssues at hf
    cases feed with
    | none =>
      simp only [List.isEmpty_nil, if_true] at hf
      exact hregex f hf
    | some fm =>
      simp only [] at hf
      by_cases hempty : (analyzeWithAstJson w root fm).isEmpty
      · rw [if_pos hempty] at hf
        exact hregex f hf
      · rw [if_neg hempty] at hf
        exact hast fm f hf

/-- C10 witness: an out-of-tree root walks to nothing; a safe feed entry
survives the filter; the one finding of a concrete feed run names a safe
path. -/
theorem c10_safe_paths_witness :
    iterRustFiles exWorld ["other"] = [] ∧
    isSafePath exWorld exRsFile = true ∧
    isSafePath exWorld2 exRsFile = true := by
  refine ⟨?_, ?_, ?_⟩
  · exact (c10_safe_paths exWorld ["other"] none).1 (by decide)
  · exact (c10_safe_paths exWorld ["ws"] none).2.1 [FeedLine.entry exFeedEntry]
      ⟨exRsFile, "x".data, 0, 12⟩ (by decide)
  · exact (c10_safe_paths exWorld2 ["ws"]
      (some (FeedModel.lines [FeedLine.entry exFeedEntry]))).2.2
      (exRsFile, 2, 1, rustMsg ("x".data)) (by decide)

end UBS
